import Mathlib

/-!
# Verification of the `pydrobert-param` serialization engine

A shallow embedding of the core of `pydrobert.param` (files
`config.py`, `_file_serialization.py`, `_classic_serialization.py`,
`optuna.py`), together with theorems settling the frozen claims about its
natural-language specification.

Modelling conventions:

* Python values flowing through converters are modelled by `PAtom`/`PVal`
  (numbers are exact: `Int` for `int`, `ℚ` for the dyadic `float` values the
  claims exercise; `datetime.datetime` is a record of calendar fields).
* Python `dict`s are association lists in insertion order; `dict.update` and
  `dict[k] = v` keep the position of an existing key, as CPython does.
* Exceptions become `Except`; functions that mutate a `Parameterized` in
  place instead return the updated object, and `warnings`/`logging` output is
  returned as a list of message strings.
* The stdlib pieces `strftime`/`strptime` are external to the repository;
  the generic logic that iterates over format strings is embedded
  parametrically in those two functions, and a concrete executable
  implementation of the directives `%Y %m %d %H %M %S %f` is provided for
  witnesses (matching CPython's behaviour on those directives).
-/

namespace PydrobertParam

/-! ## Python values -/

/-- Scalar Python values handled by the converters. -/
inductive PAtom where
  | pnone
  | pbool (b : Bool)
  | pint (n : Int)
  | pfloat (q : ℚ)
  | pstr (s : String)
deriving DecidableEq, Repr

/-- A naive `datetime.datetime` (no time zone), as a record of fields. -/
structure DT where
  year : Nat
  month : Nat
  day : Nat
  hour : Nat
  minute : Nat
  second : Nat
  microsecond : Nat
deriving DecidableEq, Repr

/-- Python values flowing through the (de)serializers: scalars, lists,
tuples and naive datetimes.  (Deeper nesting is not exercised by the
claims.) -/
inductive PVal where
  | atom (a : PAtom)
  | plist (xs : List PAtom)
  | ptuple (xs : List PAtom)
  | pdatetime (dt : DT)
deriving DecidableEq, Repr

/-- Python `==` on scalars: `True == 1`, `False == 0`, ints equal floats of
the same value, strings only equal strings. -/
def pyEqAtom : PAtom → PAtom → Bool
  | .pnone, .pnone => true
  | .pbool a, .pbool b => a == b
  | .pbool a, .pint n => (if a then (1 : Int) else 0) == n
  | .pint n, .pbool a => n == (if a then (1 : Int) else 0)
  | .pbool a, .pfloat q => (if a then (1 : ℚ) else 0) == q
  | .pfloat q, .pbool a => q == (if a then (1 : ℚ) else 0)
  | .pint n, .pint m => n == m
  | .pint n, .pfloat q => (n : ℚ) == q
  | .pfloat q, .pint n => q == (n : ℚ)
  | .pfloat q, .pfloat r => q == r
  | .pstr s, .pstr t => s == t
  | _, _ => false

/-- Python `==` on `PVal`: lists never equal tuples, element-wise otherwise. -/
def pyEqVal : PVal → PVal → Bool
  | .atom a, .atom b => pyEqAtom a b
  | .plist xs, .plist ys =>
      xs.length == ys.length && (List.zip xs ys).all fun p => pyEqAtom p.1 p.2
  | .ptuple xs, .ptuple ys =>
      xs.length == ys.length && (List.zip xs ys).all fun p => pyEqAtom p.1 p.2
  | .pdatetime a, .pdatetime b => a == b
  | _, _ => false

/-- Python iteration: strings iterate over their characters, lists and
tuples over their elements; scalars and datetimes are not iterable. -/
def toIterable : PVal → Option (List PAtom)
  | .atom (.pstr s) => some (s.data.map fun c => .pstr (String.mk [c]))
  | .plist xs => some xs
  | .ptuple xs => some xs
  | _ => none

/-- `str()` of a scalar.  Floats use the exact (terminating, since model
floats are dyadic rationals) decimal expansion; this agrees with CPython on
the values the development evaluates. -/
def fracDigits : Nat → ℚ → String → String
  | 0, _, acc => acc
  | fuel + 1, r, acc =>
    if r = 0 then acc
    else
      let r10 := r * 10
      let d : Nat := r10.floor.toNat
      fracDigits fuel (r10 - (d : ℚ)) (acc ++ toString d)

def decimalExpansion (fuel : Nat) (q : ℚ) : String :=
  let neg := q < 0
  let q := |q|
  let ip : Nat := q.floor.toNat
  let fracPart := fracDigits fuel (q - (ip : ℚ)) ""
  (if neg then "-" else "") ++ toString ip ++ "." ++
    (if fracPart = "" then "0" else fracPart)

def pyStrAtom : PAtom → String
  | .pnone => "None"
  | .pbool b => if b then "True" else "False"
  | .pint n => toString n
  | .pfloat q => decimalExpansion 60 q
  | .pstr s => s

/-- `repr()` of a scalar (strings are quoted), used when rendering lists. -/
def pyReprAtom : PAtom → String
  | .pstr s => "'" ++ s ++ "'"
  | a => pyStrAtom a

def pyStrDT (dt : DT) : String :=
  let pad (w n : Nat) : String :=
    let s := toString n
    String.mk (List.replicate (w - s.length) '0') ++ s
  pad 4 dt.year ++ "-" ++ pad 2 dt.month ++ "-" ++ pad 2 dt.day ++ " " ++
    pad 2 dt.hour ++ ":" ++ pad 2 dt.minute ++ ":" ++ pad 2 dt.second ++
    (if dt.microsecond = 0 then "" else "." ++ pad 6 dt.microsecond)

/-- `str()` of a `PVal`. -/
def pyStr : PVal → String
  | .atom a => pyStrAtom a
  | .plist xs => "[" ++ String.intercalate ", " (xs.map pyReprAtom) ++ "]"
  | .ptuple xs => "(" ++ String.intercalate ", " (xs.map pyReprAtom) ++ ")"
  | .pdatetime dt => pyStrDT dt

/-! ## Association lists with Python `dict` semantics -/

/-- `d[k]`-style lookup: first match (a Python dict has unique keys). -/
def lookupAssoc {K V : Type} [DecidableEq K] : List (K × V) → K → Option V
  | [], _ => none
  | (k, v) :: rest, k' => if k' = k then some v else lookupAssoc rest k'

/-- `d[k] = v`: replace in place if the key is present, else append
(CPython insertion-order semantics). -/
def setAssoc {K V : Type} [DecidableEq K] : List (K × V) → K → V → List (K × V)
  | [], k, v => [(k, v)]
  | (k', v') :: rest, k, v =>
      if k = k' then (k', v) :: rest else (k', v') :: setAssoc rest k v

/-- `d.update(d2)`: apply every assignment of `d2` to `d` in order. -/
def updateAssoc {K V : Type} [DecidableEq K] (d d2 : List (K × V)) : List (K × V) :=
  d2.foldl (fun acc kv => setAssoc acc kv.1 kv.2) d

/-! ## Errors (`_classic_serialization.py` lines 67-73 and Python builtins) -/

/-- The error universe of the engine.  `paramConfigTypeError` is the typed
conversion error; the rest model uncaught Python builtin exceptions. -/
inductive PErr where
  | paramConfigTypeError (objName paramName msg : String)
  | valueError (msg : String)
  | typeError (msg : String)
  | keyError (key : String)
  | nameError (name : String)
  | attributeError (msg : String)
deriving DecidableEq, Repr

/-! ## The typed-attribute framework surface (external `param` library)

Only the surface consumed by the engine is modelled: enumerate declared
parameters, read a parameter's declared kind and metadata, get and set a
value.  `set_param` validation is the external library's concern and is
modelled as an unconditional update. -/

/-- The declared kinds whose default converters this development embeds
(`param.Boolean`, `param.Integer`, ... as keys of the registry dicts).
`other` stands for any kind without a default converter. -/
inductive PType where
  | boolean
  | integer
  | number
  | string
  | plist
  | ptuple
  | numericTuple
  | listSelector
  | objectSelector
  | classSelector
  | date
  | other
deriving DecidableEq, Repr

/-- An element class for `param.List(class_=...)`, kept first-order so that
everything stays decidable.  `construct` models `class_(x)`. -/
inductive ClassTag where
  | tagInt
  | tagStr
deriving DecidableEq, Repr

def ClassTag.isInstance : ClassTag → PVal → Bool
  | .tagInt, .atom (.pint _) => true
  | .tagInt, .atom (.pbool _) => true
  | .tagStr, .atom (.pstr _) => true
  | _, _ => false

/-- Per-attribute metadata read from a descriptor (`parameterized.param.params()[name]`). -/
structure PParam where
  ptype : PType
  allow_None : Bool := false
  doc : Option String := none
  /-- `get_range()` for selector kinds: name → allowed value. -/
  range : List (String × PVal) := []
  /-- `class_` for list kinds; `is_instance` for class selectors. -/
  class_ : Option ClassTag := none
  is_instance : Bool := false
deriving DecidableEq, Repr

/-- A `param.parameterized.Parameterized` instance: declared parameters
(including the implicit `name` parameter) and the current values. -/
structure Parameterized where
  params : List (String × PParam)
  values : List (String × PVal)
deriving DecidableEq, Repr

/-- `parameterized.name` (the value of the `name` parameter). -/
def Parameterized.objName (p : Parameterized) : String :=
  match lookupAssoc p.values "name" with
  | some (.atom (.pstr s)) => s
  | _ => ""

/-- `getattr(parameterized, name)`: a declared parameter always has a value. -/
def Parameterized.getValue (p : Parameterized) (name : String) : PVal :=
  (lookupAssoc p.values name).getD (.atom .pnone)

/-- `parameterized.param.set_param(name, v)` (validation is external). -/
def Parameterized.setParam (p : Parameterized) (name : String) (v : PVal) : Parameterized :=
  { p with values := setAssoc p.values name v }

/-- `parameterized.param.params()[name]`, raising `KeyError` when absent. -/
def paramsGet (p : Parameterized) (name : String) : Except PErr PParam :=
  match lookupAssoc p.params name with
  | some pp => .ok pp
  | none => .error (.keyError name)

/-! ## YAML backend selection (`config.py`, `_file_serialization.py`)

`serialize_from_obj_to_yaml` and `deserialize_from_yaml_to_obj` walk
`config.YAML_MODULE_PRIORITIES`, recognising the tokens `"ruamel.yaml"`,
`"ruamel_yaml"` and `"pyyaml"` (importing modules `ruamel.yaml`,
`ruamel_yaml` and `yaml` respectively), raising `ValueError` on any other
token, and raising `ImportError` when the list is exhausted.  Importability
of a module name is the environment's state, passed as a predicate. -/

/-- `config.YAML_MODULE_PRIORITIES` default (config.py line 24). -/
def YAML_MODULE_PRIORITIES : List String := ["ruamel.yaml", "ruamel_yaml", "yaml"]

inductive YamlBackend where
  | ruamelYaml
  | ruamelYamlLegacy
  | pyyaml
deriving DecidableEq, Repr

inductive YamlSelErr where
  | valueError (token : String)
  | importError (priorities : List String)
deriving DecidableEq, Repr

/-- The backend-selection loop of `serialize_from_obj_to_yaml`
(`_file_serialization.py` lines 82-112). -/
def selectYamlSerializerBackend (priorities : List String)
    (importable : String → Bool) : Except YamlSelErr YamlBackend :=
  match priorities with
  | [] => .error (.importError priorities)
  | name :: rest =>
    if name = "ruamel.yaml" then
      if importable "ruamel.yaml" then .ok .ruamelYaml
      else match selectYamlSerializerBackend rest importable with
        | .error (.importError _) => .error (.importError priorities)
        | r => r
    else if name = "ruamel_yaml" then
      if importable "ruamel_yaml" then .ok .ruamelYamlLegacy
      else match selectYamlSerializerBackend rest importable with
        | .error (.importError _) => .error (.importError priorities)
        | r => r
    else if name = "pyyaml" then
      if importable "yaml" then .ok .pyyaml
      else match selectYamlSerializerBackend rest importable with
        | .error (.importError _) => .error (.importError priorities)
        | r => r
    else .error (.valueError name)

/-- The backend-selection loop of `deserialize_from_yaml_to_obj`
(`_file_serialization.py` lines 134-175): same tokens, same fallback, a
`ValueError` for unrecognised tokens and an `ImportError` when no listed
backend is importable. -/
def selectYamlDeserializerBackend (priorities : List String)
    (importable : String → Bool) : Except YamlSelErr YamlBackend :=
  match priorities with
  | [] => .error (.importError priorities)
  | name :: rest =>
    if name = "ruamel.yaml" ∨ name = "ruamel_yaml" then
      if name = "ruamel.yaml" then
        if importable "ruamel.yaml" then .ok .ruamelYaml
        else match selectYamlDeserializerBackend rest importable with
          | .error (.importError _) => .error (.importError priorities)
          | r => r
      else
        if importable "ruamel_yaml" then .ok .ruamelYamlLegacy
        else match selectYamlDeserializerBackend rest importable with
          | .error (.importError _) => .error (.importError priorities)
          | r => r
    else if name = "pyyaml" then
      if importable "yaml" then .ok .pyyaml
      else match selectYamlDeserializerBackend rest importable with
        | .error (.importError _) => .error (.importError priorities)
        | r => r
    else .error (.valueError name)

/-! ## `_equal` (`_classic_serialization.py` lines 51-64, no-numpy branch)

`_equal_array(a, b)` is `all(c == d for c, d in zip(a, b))` — note the
truncating `zip` — or `0` when either argument is not iterable;
`_equal` falls through to `a == b` whenever that result `== 0`, which in
Python is also the case when it is `False`. -/

def pyEqualArray (a b : PVal) : Option Bool :=
  match toIterable a, toIterable b with
  | some xs, some ys => some ((List.zip xs ys).all fun q => pyEqAtom q.1 q.2)
  | _, _ => none

def pyEqual (a b : PVal) : Bool :=
  match pyEqualArray a b with
  | some true => true
  | _ => pyEqVal a b

/-! ## Python casts used by the `_CastDeserializer` family -/

/-- `int(x)` for strings: optional surrounding whitespace, optional sign,
decimal digits (CPython also accepts underscores and other bases; not
exercised here). -/
def parsePyInt (s : String) : Option Int :=
  let s := s.trim
  let (neg, ds) : Bool × List Char :=
    match s.data with
    | '-' :: rest => (true, rest)
    | '+' :: rest => (false, rest)
    | l => (false, l)
  if ds = [] ∨ ¬ ds.all Char.isDigit then none
  else
    let n : Nat := ds.foldl (fun acc c => acc * 10 + (c.toNat - '0'.toNat)) 0
    some (if neg then -(n : Int) else (n : Int))

/-- `float(x)` for strings: optional sign, digits with an optional single
decimal point (CPython's exponent/`inf`/`nan` forms are not exercised). -/
def parsePyFloat (s : String) : Option ℚ :=
  let s := s.trim
  let (neg, ds) : Bool × List Char :=
    match s.data with
    | '-' :: rest => (true, rest)
    | '+' :: rest => (false, rest)
    | l => (false, l)
  let ip := ds.takeWhile Char.isDigit
  let rest := ds.drop ip.length
  let digitsVal (l : List Char) : Nat :=
    l.foldl (fun acc c => acc * 10 + (c.toNat - '0'.toNat)) 0
  match rest with
  | [] =>
    if ip = [] then none
    else some ((if neg then -1 else 1) * (digitsVal ip : ℚ))
  | '.' :: fp =>
    if ¬ fp.all Char.isDigit ∨ (ip = [] ∧ fp = []) then none
    else
      let q : ℚ := (digitsVal ip : ℚ) + (digitsVal fp : ℚ) / ((10 : ℚ) ^ fp.length)
      some ((if neg then -1 else 1) * q)
  | _ => none

/-- `int(block)`: `ValueError` on bad strings, `TypeError` on
non-numeric, non-string values.  (`isinstance(block, int)` is checked by
the caller; bools are ints in Python.) -/
def pyIntCast (objName pname : String) : PVal → Except PErr PVal
  | .atom (.pint n) => .ok (.atom (.pint n))
  | .atom (.pbool b) => .ok (.atom (.pint (if b then 1 else 0)))
  | .atom (.pfloat q) => .ok (.atom (.pint (q.num / (q.den : Int))))
  | .atom (.pstr s) =>
    match parsePyInt s with
    | some n => .ok (.atom (.pint n))
    | none => .error (.valueError ("invalid literal for int(): " ++ s))
  | v => .error (.typeError ("int() argument: " ++ pyStr v ++ " (" ++ objName ++ "." ++ pname ++ ")"))

/-- `float(block)`. -/
def pyFloatCast (objName pname : String) : PVal → Except PErr PVal
  | .atom (.pfloat q) => .ok (.atom (.pfloat q))
  | .atom (.pint n) => .ok (.atom (.pfloat (n : ℚ)))
  | .atom (.pbool b) => .ok (.atom (.pfloat (if b then 1 else 0)))
  | .atom (.pstr s) =>
    match parsePyFloat s with
    | some q => .ok (.atom (.pfloat q))
    | none => .error (.valueError ("could not convert string to float: " ++ s))
  | v => .error (.typeError ("float() argument: " ++ pyStr v ++ " (" ++ objName ++ "." ++ pname ++ ")"))

/-- `tuple(block)`: any iterable; `TypeError` otherwise. -/
def pyTupleCast (objName pname : String) (v : PVal) : Except PErr PVal :=
  match toIterable v with
  | some xs => .ok (.ptuple xs)
  | none => .error (.typeError ("not iterable: " ++ pyStr v ++ " (" ++ objName ++ "." ++ pname ++ ")"))

/-- Python set membership `v in {atoms...}`: hashes first (lists are
unhashable → `TypeError`), then compares with `==`. -/
def pyHashable : PVal → Bool
  | .plist _ => false
  | _ => true

def pyMemAtoms (v : PVal) (s : List PAtom) : Except PErr Bool :=
  if pyHashable v then
    .ok (match v with
      | .atom a => s.any fun m => pyEqAtom a m
      | _ => false)
  else .error (.typeError "unhashable type: 'list'")

/-! ## Deserializers (`_classic_serialization.py` lines 995-1612) -/

/-- `ParamConfigDeserializer.check_if_allow_none_and_set` (lines 995-1021):
sets `None` and reports `true` exactly when `block is None` and the
descriptor's `allow_None` is set. -/
def checkIfAllowNoneAndSet (name : String) (block : PVal) (p : Parameterized) :
    Except PErr (Option Parameterized) := do
  let pp ← paramsGet p name
  if block = .atom .pnone ∧ pp.allow_None then
    return some (p.setParam name (.atom .pnone))
  else
    return none

/-- `DefaultBooleanDeserializer.TRUE_VALUES` (lines 1114-1126). -/
def TRUE_VALUES : List PAtom :=
  [.pstr "True", .pstr "true", .pstr "t", .pstr "on", .pstr "TRUE", .pstr "T",
   .pstr "ON", .pstr "yes", .pstr "YES", .pint 1, .pstr "1"]

/-- `DefaultBooleanDeserializer.FALSE_VALUES` (lines 1127-1139). -/
def FALSE_VALUES : List PAtom :=
  [.pstr "False", .pstr "false", .pstr "f", .pstr "off", .pstr "FALSE", .pstr "F",
   .pstr "OFF", .pstr "no", .pstr "NO", .pint 0, .pstr "0"]

/-- `DefaultBooleanDeserializer.deserialize` (lines 1141-1155). -/
def booleanDeserialize (name : String) (block : PVal) (p : Parameterized) :
    Except PErr Parameterized := do
  match ← checkIfAllowNoneAndSet name block p with
  | some p' => return p'
  | none =>
    let inTrue ← pyMemAtoms block TRUE_VALUES
    let block := if inTrue then .atom (.pbool true) else block
    let inFalse ← if inTrue then pure false else pyMemAtoms block FALSE_VALUES
    let block := if inFalse then .atom (.pbool false) else block
    match block with
    | .atom (.pbool b) => return p.setParam name (.atom (.pbool b))
    | _ =>
      throw (.paramConfigTypeError p.objName name
        ("cannot convert \"" ++ pyStr block ++ "\" to bool"))

/-- `DefaultDeserializer.deserialize` (lines 1031-1039): none check, then
the raw value verbatim (`set_param` validation is external). -/
def defaultDeserialize (name : String) (block : PVal) (p : Parameterized) :
    Except PErr Parameterized := do
  match ← checkIfAllowNoneAndSet name block p with
  | some p' => return p'
  | none => return p.setParam name block

/-- `_CastDeserializer.deserialize` (lines 1530-1541) shared template:
none check; keep the value when it is already an instance of `class_`,
else cast; `ValueError` from the cast becomes `ParamConfigTypeError`. -/
def castDeserialize (isInst : PVal → Bool)
    (cast : String → String → PVal → Except PErr PVal)
    (name : String) (block : PVal) (p : Parameterized) :
    Except PErr Parameterized := do
  match ← checkIfAllowNoneAndSet name block p with
  | some p' => return p'
  | none =>
    if isInst block then
      return p.setParam name block
    else
      match cast p.objName name block with
      | .ok v => return p.setParam name v
      | .error (.valueError _) => throw (.paramConfigTypeError p.objName name "")
      | .error e => throw e

/-- `isinstance(block, int)`: Python bools are ints. -/
def pyIsInt : PVal → Bool
  | .atom (.pint _) => true
  | .atom (.pbool _) => true
  | _ => false

def pyIsFloat : PVal → Bool
  | .atom (.pfloat _) => true
  | _ => false

def pyIsStr : PVal → Bool
  | .atom (.pstr _) => true
  | _ => false

def pyIsTuple : PVal → Bool
  | .ptuple _ => true
  | _ => false

/-- `_find_object_in_object_selector` (lines 1158-1171): match by `_equal`
against `get_range()` values, then by `str(block)` as a key, else
`set_param(block)` and fall off the end (returning Python `None`). -/
def findObjectInObjectSelector (name : String) (block : PVal) (p : Parameterized) :
    Except PErr (Parameterized × PVal) := do
  let pp ← paramsGet p name
  match (pp.range.map Prod.snd).find? fun v => pyEqual v block with
  | some v => return (p, v)
  | none =>
    match lookupAssoc pp.range (pyStr block) with
    | some v => return (p, v)
    | none => return (p.setParam name block, .atom .pnone)

/-- `DefaultObjectSelectorDeserializer.deserialize` (lines 1586-1592). -/
def objectSelectorDeserialize (name : String) (block : PVal) (p : Parameterized) :
    Except PErr Parameterized := do
  match ← checkIfAllowNoneAndSet name block p with
  | some p' => return p'
  | none =>
    let (p', v) ← findObjectInObjectSelector name block p
    return p'.setParam name v

/-- The model keeps selector ranges and list elements scalar; a non-scalar
element surfacing where an atom is required is reported as a `TypeError`
(the claims only exercise scalar ranges). -/
def expectAtom (v : PVal) : Except PErr PAtom :=
  match v with
  | .atom a => .ok a
  | _ => .error (.typeError "model: non-scalar element")

/-- The element loop of `DefaultListSelectorDeserializer.deserialize`:
`[_find_object_in_object_selector(name, x, parameterized) for x in block]`
(each lookup may itself set the parameter on its fallback path). -/
def listSelectorElems (name : String) (p : Parameterized) (acc : List PAtom) :
    List PAtom → Except PErr (Parameterized × List PAtom)
  | [] => .ok (p, acc.reverse)
  | x :: rest => do
    let (p', v) ← findObjectInObjectSelector name (.atom x) p
    let a ← expectAtom v
    listSelectorElems name p' (a :: acc) rest

/-- `DefaultListSelectorDeserializer.deserialize` (lines 1494-1504).
Deliberately no none check ("a list selector cannot be none, only empty.
Therefore, no "None" checks", line 1497); a `TypeError` from iterating
`block` becomes `ParamConfigTypeError`. -/
def listSelectorDeserialize (name : String) (block : PVal) (p : Parameterized) :
    Except PErr Parameterized := do
  match toIterable block with
  | none => throw (.paramConfigTypeError p.objName name "")
  | some xs =>
    let (p', vals) ← listSelectorElems name p [] xs
    return p'.setParam name (.plist vals)

/-- `DefaultListDeserializer.deserialize` (lines 1466-1484): none check;
with a declared element class coerce each element, else `list(block)`;
`TypeError`/`ValueError` become `ParamConfigTypeError`. -/
def ClassTag.construct (objName pname : String) : ClassTag → PVal → Except PErr PVal
  | .tagInt, v => pyIntCast objName pname v
  | .tagStr, v => .ok (.atom (.pstr (pyStr v)))

def listDeserialize (name : String) (block : PVal) (p : Parameterized) :
    Except PErr Parameterized := do
  match ← checkIfAllowNoneAndSet name block p with
  | some p' => return p'
  | none =>
    let pp ← paramsGet p name
    let r : Except PErr (List PAtom) := do
      let xs ← match toIterable block with
        | some xs => pure xs
        | none => throw (.typeError "not iterable")
      match pp.class_ with
      | some ct =>
        xs.mapM fun x => do
          if ct.isInstance (.atom x) then pure x
          else do
            let v ← ct.construct p.objName name (.atom x)
            expectAtom v
      | none => pure xs
    match r with
    | .ok xs => return p.setParam name (.plist xs)
    | .error (.typeError _) => throw (.paramConfigTypeError p.objName name "")
    | .error (.valueError _) => throw (.paramConfigTypeError p.objName name "")
    | .error e => throw e

/-- `DefaultNumericTupleDeserializer.deserialize` (lines 1563-1573):
none check; `tuple(float(x) for x in block)`; only `ValueError` is caught
(a non-iterable `block` propagates `TypeError`). -/
def floatCastList (objName pname : String) (xs : List PAtom) : Except PErr (List PAtom) :=
  xs.mapM fun x => do
    let v ← pyFloatCast objName pname (.atom x)
    expectAtom v

def numericTupleDeserialize (name : String) (block : PVal) (p : Parameterized) :
    Except PErr Parameterized := do
  match ← checkIfAllowNoneAndSet name block p with
  | some p' => return p'
  | none =>
    match toIterable block with
    | none => throw (.typeError "not iterable")
    | some xs =>
      match floatCastList p.objName name xs with
      | .ok fs => return p.setParam name (.ptuple fs)
      | .error (.valueError _) => throw (.paramConfigTypeError p.objName name "")
      | .error e => throw e

/-! ### The default deserializer registry (lines 1756-1779)

Converters are first-order tags so that registries and override maps stay
decidable data; `runDeser` gives each tag its source semantics.  The
registry below embeds the entries of `DEFAULT_DESERIALIZER_DICT` whose
kinds live inside the `PVal` universe (the numpy/pandas/datetime-backed
entries — Array, ClassSelector, DataFrame, Date, DateRange, Series — and
the aliases of kinds outside the model are out of scope). -/

inductive DeserTag where
  | defaultDeser
  | booleanDeser
  | integerDeser
  | numberDeser
  | stringDeser
  | listDeser
  | tupleDeser
  | numericTupleDeser
  | listSelectorDeser
  | objectSelectorDeser
deriving DecidableEq, Repr

def runDeser : DeserTag → String → PVal → Parameterized → Except PErr Parameterized
  | .defaultDeser => defaultDeserialize
  | .booleanDeser => booleanDeserialize
  | .integerDeser => castDeserialize pyIsInt pyIntCast
  | .numberDeser => castDeserialize pyIsFloat pyFloatCast
  | .stringDeser => castDeserialize pyIsStr fun _ _ v => .ok (.atom (.pstr (pyStr v)))
  | .listDeser => listDeserialize
  | .tupleDeser => castDeserialize pyIsTuple pyTupleCast
  | .numericTupleDeser => numericTupleDeserialize
  | .listSelectorDeser => listSelectorDeserialize
  | .objectSelectorDeser => objectSelectorDeserialize

/-- `DEFAULT_DESERIALIZER_DICT`, restricted to the modelled kinds and in
the source's key order. -/
def DEFAULT_DESERIALIZER_DICT : List (PType × DeserTag) :=
  [(.boolean, .booleanDeser),
   (.integer, .integerDeser),
   (.plist, .listDeser),
   (.listSelector, .listSelectorDeser),
   (.number, .numberDeser),
   (.numericTuple, .numericTupleDeser),
   (.objectSelector, .objectSelectorDeser),
   (.string, .stringDeser),
   (.ptuple, .tupleDeser)]

/-- `DEFAULT_BACKUP_DESERIALIZER` (line 1779). -/
def DEFAULT_BACKUP_DESERIALIZER : DeserTag := .defaultDeser

/-! ## Caller-supplied type-override dictionaries

A Python `serializer_type_dict`/`deserializer_type_dict` is a dict whose
keys are either parameter *types* or (in hierarchical mode) path *strings*,
and whose values are converters, sub-dicts, or `None`.  `C` is the
converter representation. -/

inductive TDKey where
  | typ (t : PType)
  | path (s : String)
deriving DecidableEq, Repr

inductive TDVal (C : Type) where
  | conv (c : C)
  | null
  | sub (m : List (TDKey × TDVal C))

/-- A type-override dictionary. -/
abbrev TypeDict (C : Type) : Type := List (TDKey × TDVal C)

/-- A defaults table viewed as a type-keyed dictionary. -/
def ofDefaults {C : Type} (d : List (PType × C)) : TypeDict C :=
  d.map fun tc => (TDKey.typ tc.1, TDVal.conv tc.2)

/-- The per-attribute converter selection shared verbatim by
`_serialize_to_dict_flat` (lines 613-620) and `_deserialize_from_dict_flat`
(lines 1817-1824): the name-override dict first, then the (already merged)
type dict keyed by the parameter's exact type, else the backup converter.
A non-converter value reached through the type dict fails like Python does
when the result's `serialize`/`deserialize` attribute is accessed. -/
def selectConverter {C : Type} (nameDict : List (String × C)) (merged : TypeDict C)
    (backup : C) (name : String) (t : PType) : Except PErr C :=
  match lookupAssoc nameDict name with
  | some c => .ok c
  | none =>
    match lookupAssoc merged (TDKey.typ t) with
    | some (.conv c) => .ok c
    | some _ => .error (.attributeError "object is not a converter")
    | none => .ok backup

/-- `dict(DEFAULT_*_DICT)` followed by `.update(caller_dict)`
(lines 592-597 and 1801-1806). -/
def mergeTypeDict {C : Type} (defaults : List (PType × C)) :
    Option (TypeDict C) → TypeDict C
  | none => ofDefaults defaults
  | some d => updateAssoc (ofDefaults defaults) d

/-! ## Flat deserialization (`_deserialize_from_dict_flat`, lines 1798-1825)

The source mutates `parameterized` in place and signals errors by raising;
the embedding threads the object through and reports the mutation state
reached when an exception aborts the loop, together with the
`parameterized.warning` messages issued along the way. -/

structure FlatDeserResult where
  parameterized : Parameterized
  warnings : List String
  error : Option PErr
deriving DecidableEq, Repr

def noParamToSetMsg (name objName : String) : String :=
  "No param \"" ++ name ++ "\" to set in \"" ++ objName ++ "\""

def deserializeFromDictFlatGo (dnd : List (String × DeserTag))
    (merged : TypeDict DeserTag) (onMissing : String) :
    List (String × PVal) → Parameterized → FlatDeserResult
  | [], p => ⟨p, [], none⟩
  | (name, block) :: rest, p =>
    match lookupAssoc p.params name with
    | none =>
      let msg := noParamToSetMsg name p.objName
      if onMissing = "warn" then
        let r := deserializeFromDictFlatGo dnd merged onMissing rest p
        ⟨r.parameterized, msg :: r.warnings, r.error⟩
      else if onMissing = "raise" then ⟨p, [], some (.valueError msg)⟩
      else deserializeFromDictFlatGo dnd merged onMissing rest p
    | some pp =>
      match selectConverter dnd merged DEFAULT_BACKUP_DESERIALIZER name pp.ptype with
      | .error e => ⟨p, [], some e⟩
      | .ok c =>
        match runDeser c name block p with
        | .ok p' => deserializeFromDictFlatGo dnd merged onMissing rest p'
        | .error e => ⟨p, [], some e⟩

def deserializeFromDictFlat (dict_ : List (String × PVal)) (p : Parameterized)
    (dnd : Option (List (String × DeserTag))) (dtd : Option (TypeDict DeserTag))
    (onMissing : String) : FlatDeserResult :=
  deserializeFromDictFlatGo (dnd.getD [])
    (mergeTypeDict DEFAULT_DESERIALIZER_DICT dtd) onMissing dict_ p

/-! ## Serializers (`_classic_serialization.py` lines 124-570)

A serializer's `serialize` returns the external value plus the
`parameterized.warning` messages it issued; `help_string` can raise (the
date serializer re-runs the format search). -/

/-- `isinstance(v, type(target))`, with Python's `bool <: int`. -/
def pyIsinstanceOfTypeOf (v target : PVal) : Bool :=
  match target with
  | .atom .pnone => v = .atom .pnone
  | .atom (.pbool _) => match v with | .atom (.pbool _) => true | _ => false
  | .atom (.pint _) => pyIsInt v
  | .atom (.pfloat _) => pyIsFloat v
  | .atom (.pstr _) => pyIsStr v
  | .plist _ => match v with | .plist _ => true | _ => false
  | .ptuple _ => match v with | .ptuple _ => true | _ => false
  | .pdatetime _ => match v with | .pdatetime _ => true | _ => false

/-- `_get_name_from_param_range` (lines 148-158): the first `get_range()`
entry whose value has the right type and is `_equal` to `val` yields its
name; otherwise warn and pass the value through. -/
def getNameFromParamRange (name : String) (p : Parameterized) (val : PVal) :
    Except PErr (PVal × List String) := do
  let pp ← paramsGet p name
  match pp.range.find? fun nv => pyIsinstanceOfTypeOf nv.2 val && pyEqual nv.2 val with
  | some nv => return (.atom (.pstr nv.1), [])
  | none =>
    return (val,
      ["Could not find value of " ++ name ++
       " in get_range(), so serializing value directly"])

/-- `", ".join('"' + x + '"' for x in hashes)` used by the selector
`help_string`s. -/
def choicesString (range : List (String × PVal)) : String :=
  String.intercalate ", " (range.map fun nv => "\"" ++ nv.1 ++ "\"")

/-! ### Dates (`_datetime_to_formatted`, `_timestamp`,
`DefaultDateSerializer`, lines 220-326)

`strftime`/`strptime` belong to the standard library; the format-search
logic is embedded parametrically in them (`Fmt` is the format type), and a
concrete implementation of the directives used by the default format list
is provided below for the registry entry and the witnesses. -/

/-- One step of `_datetime_to_formatted`'s loop: format, re-parse, accept on
exact equality; a `strptime` failure (`ValueError`) aborts the whole search
as `ParamConfigTypeError`; remember the most recent `(s, format)` pair. -/
def dtfLoop {Fmt : Type} (strf : DT → Fmt → String) (strp : String → Fmt → Option DT)
    (objName pname : String) (dt : DT) (prev : String × Fmt) :
    List Fmt → Except PErr (Option (String × Fmt) × (String × Fmt))
  | [] => .ok (none, prev)
  | f :: rest =>
    let s := strf dt f
    match strp s f with
    | none => .error (.paramConfigTypeError objName pname "")
    | some dt2 =>
      if dt2 = dt then .ok (some (s, f), (s, f))
      else dtfLoop strf strp objName pname dt (s, f) rest

/-- The `parameterized.warning` issued when no format round-trips
(line 232-234; only the datetime is interpolated by the format string). -/
def lossOfInfoMsg (dt : DT) : String :=
  "Loss of info for datetime " ++ pyStrDT dt ++ " in serialized format string"

/-- `_datetime_to_formatted` (lines 220-235): the first format that
round-trips wins; otherwise warn and return the last format's output.  An
empty format sequence leaves the loop variable unbound (`NameError`). -/
def datetimeToFormatted {Fmt : Type} (strf : DT → Fmt → String)
    (strp : String → Fmt → Option DT) (objName pname : String) (dt : DT)
    (formats : List Fmt) : Except PErr ((String × Fmt) × List String) :=
  match formats with
  | [] => .error (.nameError "format")
  | f0 :: _ => do
    match ← dtfLoop strf strp objName pname dt ("", f0) formats with
    | (some sf, _) => return (sf, [])
    | (none, last) => return (last, [lossOfInfoMsg dt])

/-- Days since 1970-01-01 in the proleptic Gregorian calendar. -/
def daysFromCivil (y m d : Int) : Int :=
  let y := y - (if m ≤ 2 then 1 else 0)
  let era := (if 0 ≤ y then y else y - 399) / 400
  let yoe := y - era * 400
  let mp := (m + 9) % 12
  let doy := (153 * mp + 2) / 5 + d - 1
  let doe := yoe * 365 + yoe / 4 - yoe / 100 + doy
  era * 146097 + doe - 719468

/-- `_timestamp` (lines 238-257) for naive datetimes:
`(dt - datetime(1970, 1, 1)).total_seconds()`. -/
def dtTimestamp (dt : DT) : ℚ :=
  ((daysFromCivil dt.year dt.month dt.day * 86400
    + dt.hour * 3600 + dt.minute * 60 + dt.second : Int) : ℚ)
    + (dt.microsecond : ℚ) / 1000000

/-- `DefaultDateSerializer.serialize` (lines 313-326), parametric in the
stdlib pieces.  A list-valued `format` is modelled (the source also accepts
a single string, which it wraps into a 1-tuple first). -/
def defaultDateSerializerSerialize {Fmt : Type} (strf : DT → Fmt → String)
    (strp : String → Fmt → Option DT) (timestamp : DT → ℚ)
    (format : Option (List Fmt)) (name : String) (p : Parameterized) :
    Except PErr (PVal × List String) := do
  let val := p.getValue name
  if val = .atom .pnone then
    return (.atom .pnone, [])
  else
    match val with
    | .pdatetime dt =>
      match format with
      | none => return (.atom (.pfloat (timestamp dt)), [])
      | some formats => do
        let (sf, ws) ← datetimeToFormatted strf strp p.objName name dt formats
        return (.atom (.pstr sf.1), ws)
    | v => return (.atom (.pstr (pyStr v)), [])

/-- `DefaultDateSerializer.help_string` (lines 294-311); its
`parameterized.warning` output goes to the logger and is not returned. -/
def defaultDateSerializerHelpString {Fmt : Type} (strf : DT → Fmt → String)
    (strp : String → Fmt → Option DT) (fmtStr : Fmt → String)
    (format : Option (List Fmt)) (name : String) (p : Parameterized) :
    Except PErr (Option String) := do
  let val := p.getValue name
  if val = .atom .pnone then
    return none
  else
    match val with
    | .pdatetime dt =>
      match format with
      | none => return some "Timestamp"
      | some formats => do
        let (sf, _) ← datetimeToFormatted strf strp p.objName name dt formats
        return some ("Date format string: " ++ fmtStr sf.2)
    | _ => return some "ISO 8601 format string"

/-! ### A concrete `strftime`/`strptime` for the default directives

Faithful to CPython for format strings built from literals and the
directives `%Y %m %d %H %M %S %f %%` (the only ones the default format
lists use): `strftime` zero-pads, `strptime` consumes 1-4 digits for `%Y`,
1-2 for the two-digit fields and 1-6 for `%f` (right-padding the
microseconds), starts from the 1900-01-01 default, and validates the
calendar fields. -/

def padNum (w n : Nat) : List Char :=
  let s := toString n
  List.replicate (w - s.length) '0' ++ s.data

def strfDirective (dt : DT) : Char → List Char
  | 'Y' => padNum 4 dt.year
  | 'm' => padNum 2 dt.month
  | 'd' => padNum 2 dt.day
  | 'H' => padNum 2 dt.hour
  | 'M' => padNum 2 dt.minute
  | 'S' => padNum 2 dt.second
  | 'f' => padNum 6 dt.microsecond
  | '%' => ['%']
  | c => ['%', c]

def strftimeGo (dt : DT) : List Char → List Char
  | [] => []
  | '%' :: c :: rest => strfDirective dt c ++ strftimeGo dt rest
  | c :: rest => c :: strftimeGo dt rest

def strftimePy (dt : DT) (fmt : String) : String :=
  String.mk (strftimeGo dt fmt.data)

/-- Greedily consume between 1 and `maxLen` digits; also report how many
digits were consumed (needed to scale `%f`). -/
def takeDigits (maxLen : Nat) (s : List Char) : Option (Nat × Nat × List Char) :=
  let ds := (s.takeWhile Char.isDigit).take maxLen
  if ds = [] then none
  else
    some (ds.foldl (fun acc c => acc * 10 + (c.toNat - '0'.toNat)) 0,
      ds.length, s.drop ds.length)

def isLeapYear (y : Nat) : Bool :=
  y % 4 = 0 && (y % 100 != 0 || y % 400 = 0)

def daysInMonth (y m : Nat) : Nat :=
  if m = 2 then (if isLeapYear y then 29 else 28)
  else if m = 4 ∨ m = 6 ∨ m = 9 ∨ m = 11 then 30
  else 31

def strptimeGo (fmt : List Char) (s : List Char) (acc : DT) : Option DT :=
  match fmt with
  | [] => if s = [] then some acc else none
  | '%' :: c :: rest =>
    (match c with
     | 'Y' => (takeDigits 4 s).bind fun (n, _, s') => strptimeGo rest s' { acc with year := n }
     | 'm' => (takeDigits 2 s).bind fun (n, _, s') => strptimeGo rest s' { acc with month := n }
     | 'd' => (takeDigits 2 s).bind fun (n, _, s') => strptimeGo rest s' { acc with day := n }
     | 'H' => (takeDigits 2 s).bind fun (n, _, s') => strptimeGo rest s' { acc with hour := n }
     | 'M' => (takeDigits 2 s).bind fun (n, _, s') => strptimeGo rest s' { acc with minute := n }
     | 'S' => (takeDigits 2 s).bind fun (n, _, s') => strptimeGo rest s' { acc with second := n }
     | 'f' => (takeDigits 6 s).bind fun (n, k, s') =>
         strptimeGo rest s' { acc with microsecond := n * 10 ^ (6 - k) }
     | '%' => match s with
       | '%' :: s' => strptimeGo rest s' acc
       | _ => none
     | _ => none)
  | c :: rest =>
    match s with
    | c' :: s' => if c = c' then strptimeGo rest s' acc else none
    | [] => none

def strptimePy (s fmt : String) : Option DT :=
  (strptimeGo fmt.data s.data ⟨1900, 1, 1, 0, 0, 0, 0⟩).bind fun dt =>
    if 1 ≤ dt.month ∧ dt.month ≤ 12 ∧ 1 ≤ dt.day ∧ dt.day ≤ daysInMonth dt.year dt.month
        ∧ dt.hour ≤ 23 ∧ dt.minute ≤ 59 ∧ dt.second ≤ 59 then
      some dt
    else none

/-- The default `format` of `DefaultDateSerializer.__init__` (lines 283-292). -/
def DEFAULT_DATE_FORMATS : List String :=
  ["%Y-%m-%d", "%Y-%m-%dT%H:%M:%S", "%Y-%m-%dT%H:%M:%S.%f"]

/-! ### The default serializer registry (lines 554-570)

The embedded entries of `DEFAULT_SERIALIZER_DICT` are those whose kinds
live in the `PVal` universe (Array, DataFrame, DateRange, Series and the
alias keys of unmodelled kinds are out of scope).  Note the dict has no
entries for Boolean/Integer/Number/String/List — those kinds fall through
to `DEFAULT_BACKUP_SERIALIZER`. -/

inductive SerTag where
  | defaultSer
  | tupleSer
  | listSelectorSer
  | objectSelectorSer
  | classSelectorSer
  | dateSer
deriving DecidableEq, Repr

/-- `DefaultTupleSerializer.serialize` (lines 483-487). -/
def tupleSerialize (name : String) (p : Parameterized) :
    Except PErr (PVal × List String) := do
  let val := p.getValue name
  if val = .atom .pnone then return (.atom .pnone, [])
  else
    match toIterable val with
    | some xs => return (.plist xs, [])
    | none => throw (.typeError "not iterable")

/-- The element loop of `DefaultListSelectorSerializer.serialize`
(lines 412-416); iterating a non-iterable value propagates `TypeError`. -/
def listSelectorSerElems (name : String) (p : Parameterized) (acc : List PAtom)
    (ws : List String) : List PAtom → Except PErr (PVal × List String)
  | [] => .ok (.plist acc.reverse, ws)
  | x :: rest => do
    let (v, w) ← getNameFromParamRange name p (.atom x)
    let a ← expectAtom v
    listSelectorSerElems name p (a :: acc) (ws ++ w) rest

def listSelectorSerialize (name : String) (p : Parameterized) :
    Except PErr (PVal × List String) := do
  match toIterable (p.getValue name) with
  | none => throw (.typeError "not iterable")
  | some xs => listSelectorSerElems name p [] [] xs

/-- `DefaultObjectSelectorSerializer.serialize` (lines 442-446). -/
def objectSelectorSerialize (name : String) (p : Parameterized) :
    Except PErr (PVal × List String) := do
  let val := p.getValue name
  if val = .atom .pnone then return (.atom .pnone, [])
  else getNameFromParamRange name p val

/-- `DefaultClassSelectorSerializer.serialize` (lines 186-192). -/
def classSelectorSerialize (name : String) (p : Parameterized) :
    Except PErr (PVal × List String) := do
  let val := p.getValue name
  let pp ← paramsGet p name
  if val = .atom .pnone ∨ pp.is_instance then return (val, [])
  else getNameFromParamRange name p val

def runSer : SerTag → String → Parameterized → Except PErr (PVal × List String)
  | .defaultSer => fun name p => .ok (p.getValue name, [])
  | .tupleSer => tupleSerialize
  | .listSelectorSer => listSelectorSerialize
  | .objectSelectorSer => objectSelectorSerialize
  | .classSelectorSer => classSelectorSerialize
  | .dateSer =>
      defaultDateSerializerSerialize strftimePy strptimePy dtTimestamp
        (some DEFAULT_DATE_FORMATS)

/-- `help_string` of each serializer (the base class returns `None`). -/
def runSerHelp : SerTag → String → Parameterized → Except PErr (Option String)
  | .defaultSer => fun _ _ => .ok none
  | .tupleSer => fun _ _ => .ok none
  | .listSelectorSer => fun name p => do
      let pp ← paramsGet p name
      if pp.range.length ≠ 0 then
        return some ("Element choices: " ++ choicesString pp.range)
      else return none
  | .objectSelectorSer => fun name p => do
      let pp ← paramsGet p name
      if pp.range.length ≠ 0 then
        return some ("Choices: " ++ choicesString pp.range)
      else return none
  | .classSelectorSer => fun name p => do
      let pp ← paramsGet p name
      if pp.is_instance ∧ pp.range.length ≠ 0 then
        return some ("Choices: " ++ choicesString pp.range)
      else return none
  | .dateSer =>
      defaultDateSerializerHelpString strftimePy strptimePy id
        (some DEFAULT_DATE_FORMATS)

/-- `DEFAULT_SERIALIZER_DICT`, restricted to the modelled kinds and in the
source's key order. -/
def DEFAULT_SERIALIZER_DICT : List (PType × SerTag) :=
  [(.classSelector, .classSelectorSer),
   (.date, .dateSer),
   (.listSelector, .listSelectorSer),
   (.numericTuple, .tupleSer),
   (.objectSelector, .objectSelectorSer),
   (.ptuple, .tupleSer)]

/-- `DEFAULT_BACKUP_SERIALIZER` (line 570). -/
def DEFAULT_BACKUP_SERIALIZER : SerTag := .defaultSer

/-! ## Flat serialization (`_serialize_to_dict_flat`, lines 589-634) -/

/-- `str.strip(". ")`: remove `'.'` and `' '` from both ends. -/
def stripDotSpace (s : String) : String :=
  let isStrip (c : Char) : Bool := c = '.' || c = ' '
  String.mk (((s.data.dropWhile isStrip).reverse.dropWhile isStrip).reverse)

def noParamToReadMsg (name objName : String) : String :=
  "No param \"" ++ name ++ "\" to read in \"" ++ objName ++ "\""

/-- Lexicographic code-point comparison, Python's `<` on strings. -/
def charListLt : List Char → List Char → Bool
  | [], [] => false
  | [], _ :: _ => true
  | _ :: _, [] => false
  | c :: cs, d :: ds =>
    if c.toNat < d.toNat then true
    else if d.toNat < c.toNat then false
    else charListLt cs ds

def strLtB (a b : String) : Bool := charListLt a.data b.data

/-- String comparison used for the deterministic output sort: Python's
`sorted` on the `(key, value)` pairs of a dict orders by the (unique) keys,
comparing code points. -/
def strLeB (a b : String) : Bool := ! strLtB b a

/-- The key order of the output sort, as a decidable relation. -/
def keyLe (a b : String × PVal) : Prop := strLeB a.1 b.1 = true

instance : DecidableRel keyLe := fun a b => by
  unfold keyLe
  infer_instance

/-- `OrderedDict(sorted((k, v) for (k, v) in dict_.items()))` (line 633):
Python sorts the (unique-keyed) pairs by key; any comparison sort yields
the same list, here insertion sort. -/
def sortByKey (l : List (String × PVal)) : List (String × PVal) :=
  List.insertionSort keyLe l

structure FlatSerOut where
  dict_ : List (String × PVal)
  help : List (String × String)
  warnings : List String
deriving DecidableEq, Repr

/-- The body of `_serialize_to_dict_flat`'s `for name in only` loop
(lines 605-631), accumulating into the (insertion-ordered) `dict_` and
`help_dict`. -/
def serializeToDictFlatGo (snd : List (String × SerTag)) (merged : TypeDict SerTag)
    (onMissing : String) (p : Parameterized) :
    List String → List (String × PVal) → List (String × String) → List String →
    Except PErr (List (String × PVal) × List (String × String) × List String)
  | [], d, h, w => .ok (d, h, w)
  | name :: rest, d, h, w =>
    match lookupAssoc p.params name with
    | none =>
      let msg := noParamToReadMsg name p.objName
      if onMissing = "warn" then
        serializeToDictFlatGo snd merged onMissing p rest d h (w ++ [msg])
      else if onMissing = "raise" then .error (.valueError msg)
      else serializeToDictFlatGo snd merged onMissing p rest d h w
    | some pp => do
      let c ← selectConverter snd merged DEFAULT_BACKUP_SERIALIZER name pp.ptype
      let (v, ws) ← runSer c name p
      let hs ← runSerHelp c name p
      let d := setAssoc d name v
      let h :=
        match pp.doc with
        | some doc =>
          if doc ≠ "" then
            match hs with
            | some hser =>
              if hser ≠ "" then setAssoc h name (stripDotSpace doc ++ ". " ++ hser)
              else setAssoc h name doc
            | none => setAssoc h name doc
          else
            match hs with
            | some hser => if hser ≠ "" then setAssoc h name hser else h
            | none => h
        | none =>
          match hs with
          | some hser => if hser ≠ "" then setAssoc h name hser else h
          | none => h
      serializeToDictFlatGo snd merged onMissing p rest d h (w ++ ws)

/-- `_serialize_to_dict_flat` (lines 589-634).  When `only` is `None` the
source iterates `set(params()) - {"name"}` (set order is unspecified in
Python; the declaration order stands in for it — the returned `dict_` is
sorted afterwards either way). -/
def serializeToDictFlat (p : Parameterized) (only : Option (List String))
    (snd : Option (List (String × SerTag))) (std : Option (TypeDict SerTag))
    (onMissing : String) : Except PErr FlatSerOut := do
  let only := match only with
    | some o => o
    | none => (p.params.map Prod.fst).filter fun n => n ≠ "name"
  let merged := mergeTypeDict DEFAULT_SERIALIZER_DICT std
  let (d, h, w) ← serializeToDictFlatGo (snd.getD []) merged onMissing p only [] [] []
  return ⟨sortByKey d, h, w⟩

/-! ## Hierarchical mode (`serialize_to_dict` lines 711-753,
`deserialize_from_dict` lines 1888-1928)

In hierarchical mode the "parameterized" argument is a nested mapping whose
leaves are `Parameterized` objects; `only` and the name-override dicts
mirror that tree; the type-override dict may mix type keys (flat, applied
everywhere) with path keys (per branch).  The source drives the traversal
with explicit work queues whose items are independent; the embedding uses
the equivalent structural recursion, with the per-child threading of the
override maps (`o.get(name, None)`, `snd.get(name, None)`, and the
type-dict merge of lines 741-748 / 1921-1928) factored into the
`childOnly`/`childSnd`/`childTypeDict` helpers below. -/

inductive ObjTree where
  | leaf (p : Parameterized)
  | node (entries : List (String × ObjTree))
deriving Repr

inductive OnlyTree where
  | leafNames (names : List String)
  | node (entries : List (String × OnlyTree))
deriving Repr

inductive SndTree (C : Type) where
  | leafMap (m : List (String × C))
  | node (entries : List (String × SndTree C))

inductive OutTree where
  | flat (d : List (String × PVal))
  | node (entries : List (String × OutTree))
deriving Repr

inductive HelpTree where
  | flat (h : List (String × String))
  | node (entries : List (String × HelpTree))
deriving Repr

/-- `o if o is None else o.get(name, None)` (lines 733-736). -/
def childOnly : Option OnlyTree → String → Option OnlyTree
  | none, _ => none
  | some (.node es), k => lookupAssoc es k
  | some (.leafNames _), _ => none

/-- `snd if snd is None else snd.get(name, None)` (lines 737-740). -/
def childSnd {C : Type} : Option (SndTree C) → String → Option (SndTree C)
  | none, _ => none
  | some (.node es), k => lookupAssoc es k
  | some (.leafMap _), _ => none

/-- The type-keyed ("flat") entries of a type dict:
`dict((k, v) for (k, v) in std.items() if isinstance(k, type))`
(lines 744-746 / 1924-1926). -/
def typeEntries {C : Type} (m : TypeDict C) : TypeDict C :=
  m.filter fun kv => match kv.1 with
    | .typ _ => true
    | .path _ => false

/-- The type dict threaded to the child keyed `k` (lines 741-748 and
identically 1921-1928): `None` stays `None`; an explicit `None` entry for
`k` sends `None` down; otherwise the type-keyed entries of the current
dict, updated with the (possibly absent, then empty) entry for `k`.  A
converter stored under the path key fails like Python's
`dict.update(converter)` does. -/
def childTypeDict {C : Type} : Option (TypeDict C) → String →
    Except PErr (Option (TypeDict C))
  | none, _ => .ok none
  | some m, k =>
    match lookupAssoc m (TDKey.path k) with
    | some .null => .ok none
    | some (.sub s) => .ok (some (updateAssoc (typeEntries m) s))
    | some (.conv _) => .error (.typeError "converter is not iterable")
    | none => .ok (some (updateAssoc (typeEntries m) []))

/-- Iterated descent along a key path. -/
def descendTypeDict {C : Type} (std : Option (TypeDict C)) :
    List String → Except PErr (Option (TypeDict C))
  | [] => .ok std
  | k :: ks => do descendTypeDict (← childTypeDict std k) ks

/-- The `only` collection handed to `_serialize_to_dict_flat` at a leaf: a
set/list is used directly, and iterating a dict yields its keys (Python
`for name in only`). -/
def onlyAtLeaf : Option OnlyTree → Option (List String)
  | none => none
  | some (.leafNames ns) => some ns
  | some (.node es) => some (es.map Prod.fst)

/-- The name-override dict at a leaf (a `node` here would be a user error
the claims do not exercise). -/
def sndAtLeaf {C : Type} : Option (SndTree C) → Option (List (String × C))
  | none => none
  | some (.leafMap m) => some m
  | some (.node _) => none

mutual

/-- `serialize_to_dict` (lines 711-753): hierarchical serialization.
Returns the output dict tree, the help tree and the accumulated warnings. -/
def serializeToDict : ObjTree → Option OnlyTree → Option (SndTree SerTag) →
    Option (TypeDict SerTag) → String →
    Except PErr (OutTree × HelpTree × List String)
  | .leaf p, o, snd, std, onMissing => do
    let out ← serializeToDictFlat p (onlyAtLeaf o) (sndAtLeaf snd) std onMissing
    return (.flat out.dict_, .flat out.help, out.warnings)
  | .node es, o, snd, std, onMissing => do
    let (ds, hs, ws) ← serializeToDictChildren es o snd std onMissing
    return (.node ds, .node hs, ws)

def serializeToDictChildren : List (String × ObjTree) → Option OnlyTree →
    Option (SndTree SerTag) → Option (TypeDict SerTag) → String →
    Except PErr (List (String × OutTree) × List (String × HelpTree) × List String)
  | [], _, _, _, _ => .ok ([], [], [])
  | (name, child) :: rest, o, snd, std, onMissing => do
    let cstd ← childTypeDict std name
    let (od, oh, ow) ← serializeToDict child (childOnly o name) (childSnd snd name)
      cstd onMissing
    let (ds, hs, ws) ← serializeToDictChildren rest o snd std onMissing
    return ((name, od) :: ds, (name, oh) :: hs, ow ++ ws)

end

/-- The data argument of `deserialize_from_dict`: a nested dict whose
leaves (sitting opposite `Parameterized` leaves) are flat dicts of raw
values. -/
inductive DataTree where
  | leafDict (entries : List (String × PVal))
  | node (entries : List (String × DataTree))
deriving Repr

/-- `str(tuple_of_path_keys)` used in the missing-branch message. -/
def pathTupleStr (path : List String) : String :=
  match path with
  | [s] => "('" ++ s ++ "',)"
  | _ => "(" ++ String.intercalate ", " (path.map fun s => "'" ++ s ++ "'") ++ ")"

def missingChainMsg (path : List String) : String :=
  "dict_ contains hierarchical key chain " ++ pathTupleStr path ++
    " but no parameterized instance to match it"

mutual

/-- `deserialize_from_dict` (lines 1888-1928): hierarchical
deserialization; returns the updated object tree and the warnings (the
source's explicit stack visits the same independent items). -/
def deserializeFromDict : DataTree → ObjTree → Option (SndTree DeserTag) →
    Option (TypeDict DeserTag) → String → List String →
    Except PErr (ObjTree × List String)
  | d, .leaf p, dnd, dtd, onMissing, _ => do
    let entries ← match d with
      | .leafDict es => pure es
      | .node _ => throw (.typeError "model: nested dict opposite a leaf")
    let r := deserializeFromDictFlat entries p (sndAtLeaf dnd) dtd onMissing
    match r.error with
    | some e => throw e
    | none => return (.leaf r.parameterized, r.warnings)
  | .leafDict _, .node _, _, _, _, _ =>
    throw (.typeError "model: flat dict opposite an internal node")
  | .node des, .node pes, dnd, dtd, onMissing, path => do
    let (pes', ws) ← deserializeFromDictEntries des pes dnd dtd onMissing path
    return (.node pes', ws)

def deserializeFromDictEntries : List (String × DataTree) →
    List (String × ObjTree) → Option (SndTree DeserTag) →
    Option (TypeDict DeserTag) → String → List String →
    Except PErr (List (String × ObjTree) × List String)
  | [], pes, _, _, _, _ => .ok (pes, [])
  | (name, dchild) :: rest, pes, dnd, dtd, onMissing, path =>
    match lookupAssoc pes name with
    | none =>
      let msg := missingChainMsg (path ++ [name])
      if onMissing = "raise" then .error (.valueError msg)
      else if onMissing = "warn" then do
        let (pes', ws) ← deserializeFromDictEntries rest pes dnd dtd onMissing path
        .ok (pes', msg :: ws)
      else deserializeFromDictEntries rest pes dnd dtd onMissing path
    | some pchild => do
      let cdtd ← childTypeDict dtd name
      let (pchild', w1) ← deserializeFromDict dchild pchild (childSnd dnd name) cdtd
        onMissing (path ++ [name])
      let (pes', ws) ← deserializeFromDictEntries rest (setAssoc pes name pchild')
        dnd dtd onMissing path
      .ok (pes', w1 ++ ws)

end

/-! ## Hyperparameter-tuning helpers (`optuna.py`)

A `TunableParameterized` is modelled by its capability surface: the
`get_tunable()` name set and an opaque mutable attribute state.  Because
the claim under test is a frame property ("`suggest_param_dict` never
mutates `global_dict` or any typed object nested in it"), object identity
is explicit: tunable objects live in a `Store` keyed by references, and
`deepcopy` allocates fresh references (the dictionaries handled here are
alias-free, so `deepcopy`'s memo table plays no role).  The user-supplied
`suggest_params` (together with the trial it consumes) is an opaque
function from a node's state to its new state. -/

structure TPNode where
  tunable : List String
  state : List (String × PVal)
deriving DecidableEq, Repr

abbrev Store : Type := List (Nat × TPNode)

/-- Values of a `param_dict`: a `TunableParameterized` (by reference), a
nested mapping, or anything else (skipped by the crawl). -/
inductive GTree where
  | tp (ref : Nat)
  | other
  | node (entries : List (String × GTree))
deriving Repr

def storeGetD (store : Store) (r : Nat) : TPNode :=
  (lookupAssoc store r).getD ⟨[], []⟩

/-- A reference strictly above everything allocated. -/
def nextFresh (store : Store) : Nat :=
  (store.map Prod.fst).foldr max 0 + 1

mutual

def treeRefs : GTree → List Nat
  | .tp r => [r]
  | .other => []
  | .node es => entriesRefs es

def entriesRefs : List (String × GTree) → List Nat
  | [] => []
  | (_, g) :: rest => treeRefs g ++ entriesRefs rest

end

mutual

/-- `copy.deepcopy` on a `param_dict`: fresh references, copied states. -/
def deepcopyTree : GTree → Store → Nat → GTree × Store × Nat
  | .tp r, store, next => (.tp next, store ++ [(next, storeGetD store r)], next + 1)
  | .other, store, next => (.other, store, next)
  | .node es, store, next =>
    let (es', store', next') := deepcopyEntries es store next
    (.node es', store', next')

def deepcopyEntries : List (String × GTree) → Store → Nat →
    List (String × GTree) × Store × Nat
  | [], store, next => ([], store, next)
  | (k, g) :: rest, store, next =>
    let (g', store', next') := deepcopyTree g store next
    let (rest', store'', next'') := deepcopyEntries rest store' next'
    ((k, g') :: rest', store'', next'')

end

/-- `x[n:]` (Python slicing = list drop on the characters). -/
def strDrop (s : String) (n : Nat) : String := String.mk (s.data.drop n)

/-- `s.startswith(p)`. -/
def charListIsPrefix : List Char → List Char → Bool
  | [], _ => true
  | _ :: _, [] => false
  | c :: cs, d :: ds => c.toNat == d.toNat && charListIsPrefix cs ds

def strPrefixOfB (p s : String) : Bool := charListIsPrefix p.data s.data

/-- `s.replace(".", repl)`. -/
def replaceDots (repl : String) (s : String) : String :=
  String.mk (s.data.foldr
    (fun c acc => if c.toNat == '.'.toNat then repl.data ++ acc else c :: acc) [])

/-- `_to_multikey` (optuna.py lines 289-291). -/
def toMultikey (s : String) : String :=
  "[\"" ++ replaceDots "\"][\"" s ++ "\"]"

/-- The dotted-key message of `_tunable_params_from_param_dict`
(lines 300-307). -/
def dottedKeyMsg (pfx key : String) : String :=
  "Found key" ++ (if pfx ≠ "" then " at param_dict" ++ toMultikey pfx else "") ++
    " with '.' in its name: '" ++ key ++
    "'. This can lead to ambiguities in suggest_param_dict and should be avoided"

mutual

/-- `_tunable_params_from_param_dict` (lines 294-319): crawl the nested
dict in order, recording `TunableParameterized` values under their
`'.'`-joined key chains (an `OrderedDict`, so a repeated chain overwrites
in place). -/
def tunableParamsEntries (onDecimal pfx : String) :
    List (String × GTree) → List (String × Nat) →
    Except PErr (List (String × Nat) × List String)
  | [], acc => .ok (acc, [])
  | (key, value) :: rest, acc => do
    let ws0 ←
      if key.data.contains '.' ∧ onDecimal ≠ "ignore" then
        let msg := dottedKeyMsg pfx key
        if onDecimal = "raise" then throw (.valueError msg)
        else pure [msg]
      else pure ([] : List String)
    let key' := if pfx ≠ "" then pfx ++ "." ++ key else key
    let (acc', ws1) ← tunableParamsValue onDecimal key' value acc
    let (accF, wsR) ← tunableParamsEntries onDecimal pfx rest acc'
    return (accF, ws0 ++ ws1 ++ wsR)

def tunableParamsValue (onDecimal key' : String) (value : GTree)
    (acc : List (String × Nat)) :
    Except PErr (List (String × Nat) × List String) :=
  match value with
  | .tp r => .ok (setAssoc acc key' r, [])
  | .other => .ok (acc, [])
  | .node es => do
    let (sub, ws) ← tunableParamsEntries onDecimal key' es []
    return (updateAssoc acc sub, ws)

end

/-- The decimal-parameter message of `get_param_dict_tunable`
(lines 156-162). -/
def decimalTunableMsg (pfx : String) (decimalTunable : List String) : String :=
  "Found parameters in param_dict" ++ toMultikey pfx ++
    " with '.' in their name: " ++ pathTupleStr decimalTunable ++
    ". These can lead to ambiguities in suggest_param_dict and should be avoided"

/-- The `tunable |= {...}` accumulation loop of `get_param_dict_tunable`
(lines 151-167); the Python value is a set, modelled as a deduplicating
list. -/
def collectTunable (store : Store) (onDecimal : String) :
    List (String × Nat) → List String → Except PErr (List String × List String)
  | [], acc => .ok (acc, [])
  | (pfx, r) :: rest, acc => do
    let newTunable := (storeGetD store r).tunable
    let ws0 ←
      if onDecimal ≠ "ignore" then
        let decimalTunable := newTunable.filter fun x => x.data.contains '.'
        if decimalTunable ≠ [] then
          let msg := decimalTunableMsg pfx decimalTunable
          if onDecimal = "raise" then throw (.valueError msg)
          else pure [msg]
        else pure ([] : List String)
      else pure ([] : List String)
    let names := newTunable.map fun x => pfx ++ "." ++ x
    let acc := acc ++ names.filter fun x => ¬ acc.contains x
    let (accF, wsR) ← collectTunable store onDecimal rest acc
    return (accF, ws0 ++ wsR)

/-- `get_param_dict_tunable` (lines 120-168). -/
def getParamDictTunable (store : Store) (paramDict : List (String × GTree))
    (onDecimal : String) : Except PErr (List String × List String) := do
  if onDecimal ≠ "ignore" ∧ onDecimal ≠ "warn" ∧ onDecimal ≠ "raise" then
    throw (.valueError "on_decimal must be 'ignore', 'warn', or 'raise'")
  let (tps, ws1) ← tunableParamsEntries onDecimal "" paramDict []
  let (tunable, ws2) ← collectTunable store onDecimal tps []
  return (tunable, ws1 ++ ws2)

/-- The per-node suggestion loop of `suggest_param_dict` (lines 275-280):
restrict `only` to this node by prefix matching, intersect with the node's
own tunable set, consume those names, and apply the (user-supplied)
`suggest_params` to the node in place. -/
def suggestLoop (suggestFn : TPNode → List String → String → TPNode) :
    List (String × Nat) → List String → Store → Store × List String
  | [], only, store => (store, only)
  | (pfx0, r) :: rest, only, store =>
    let pfx := pfx0 ++ "."
    let node := storeGetD store r
    let prefixOnly := (only.filterMap fun x =>
      if strPrefixOfB pfx x then some (strDrop x pfx.length) else none).filter
      fun x => node.tunable.contains x
    let only' := only.filter fun y =>
      ¬ (strPrefixOfB pfx y ∧ prefixOnly.contains (strDrop y pfx.length))
    let store' := setAssoc store r (suggestFn node prefixOnly pfx)
    suggestLoop suggestFn rest only' store'

/-- `str(a_set_of_strings)` for the extra-parameters warning. -/
def strSet (l : List String) : String :=
  "\x7b" ++ String.intercalate ", " (l.map fun s => "'" ++ s ++ "'") ++ "\x7d"

def extraParamsMsg (leftover : List String) : String :=
  "\"only\" contained extra parameters: " ++ strSet leftover ++
    ". To suppress this warning, set warn=False"

/-- `suggest_param_dict` (lines 225-286): resolve `only`, deep-copy
`global_dict`, crawl the copy for tunable nodes, apply suggestions
node-by-node, and warn about any unconsumed `only` entries.  Returns the
updated store, the copied dictionary, and the warnings. -/
def suggestParamDict (suggestFn : TPNode → List String → String → TPNode)
    (store : Store) (globalDict : List (String × GTree))
    (only : Option (List String)) (onDecimal : String) (warn : Bool) :
    Except PErr (Store × List (String × GTree) × List String) := do
  let (only, secondPass, ws0) ← match only with
    | none => do
      let (t, ws) ← getParamDictTunable store globalDict onDecimal
      pure (t, true, ws)
    | some o => pure (o, false, ([] : List String))
  let (paramDict, store1, _) := deepcopyEntries globalDict store (nextFresh store)
  let (tps, ws1) ←
    tunableParamsEntries (if secondPass then "ignore" else onDecimal) "" paramDict []
  let (store2, leftover) := suggestLoop suggestFn tps only store1
  let ws2 := if warn ∧ leftover ≠ [] then [extraParamsMsg leftover] else []
  return (store2, paramDict, ws0 ++ ws1 ++ ws2)

/-- The entry `tp` of the tunable-parameters crawl consumes the requested
name `y`: `y` starts with the entry's dotted prefix and the rest names one
of the node's tunable parameters. -/
def consumes (store : Store) (tp : String × Nat) (y : String) : Bool :=
  strPrefixOfB (tp.1 ++ ".") y &&
    (storeGetD store tp.2).tunable.contains (strDrop y (tp.1 ++ ".").length)

/-- A tunable node with two tunable parameters and some attribute state. -/
def exC10node : TPNode := ⟨["lr", "n"], [("s", PVal.atom (PAtom.pint 5))]⟩

def exC10store : Store := [(0, exC10node)]

def exC10dict : List (String × GTree) := [("model", GTree.tp 0)]

/-- A `suggest_params` stand-in: records the picked names in the state and,
like Python's classmethod `get_tunable`, leaves the tunable set alone. -/
def exC10fn : TPNode → List String → String → TPNode :=
  fun node picked _ =>
    ⟨node.tunable, [("picked", PVal.plist (picked.map fun n => PAtom.pstr n))]⟩

def exC10out : Store :=
  [(0, exC10node),
   (1, ⟨["lr", "n"], [("picked", PVal.plist [PAtom.pstr "lr"])]⟩)]

/-! ## Concrete objects shared by the witnesses -/

/-- A small typed object: a string `name`, a nullable boolean `b`, an
integer `i`. -/
def exObj : Parameterized :=
  { params := [("name", { ptype := .string }),
               ("b", { ptype := .boolean, allow_None := true }),
               ("i", { ptype := .integer })],
    values := [("name", .atom (.pstr "obj")),
               ("b", .atom (.pbool false)),
               ("i", .atom (.pint 0))] }

/-- A typed object holding a `Date` parameter at noon (no sub-second
component) and one at midnight. -/
def exDateNoon : Parameterized :=
  { params := [("name", { ptype := .string }), ("d", { ptype := .date })],
    values := [("name", .atom (.pstr "obj")),
               ("d", .pdatetime ⟨2020, 1, 1, 12, 0, 0, 0⟩)] }

def exDateMidnight : Parameterized :=
  { params := [("name", { ptype := .string }), ("d", { ptype := .date })],
    values := [("name", .atom (.pstr "obj")),
               ("d", .pdatetime ⟨2020, 1, 1, 0, 0, 0, 0⟩)] }

/-- The claim's true-token set, spelled out (`True` included; membership is
Python `==`, so `True` and `1` coincide anyway). -/
def claimTrueTokens : List PVal :=
  [.atom (.pbool true), .atom (.pint 1), .atom (.pstr "1"), .atom (.pstr "true"),
   .atom (.pstr "True"), .atom (.pstr "TRUE"), .atom (.pstr "t"), .atom (.pstr "T"),
   .atom (.pstr "on"), .atom (.pstr "ON"), .atom (.pstr "yes"), .atom (.pstr "YES")]

/-- The claim's symmetric false-token set. -/
def claimFalseTokens : List PVal :=
  [.atom (.pbool false), .atom (.pint 0), .atom (.pstr "0"), .atom (.pstr "false"),
   .atom (.pstr "False"), .atom (.pstr "FALSE"), .atom (.pstr "f"), .atom (.pstr "F"),
   .atom (.pstr "off"), .atom (.pstr "OFF"), .atom (.pstr "no"), .atom (.pstr "NO")]

/-- Membership by Python equality. -/
def pyValMemB (v : PVal) (l : List PVal) : Bool := l.any fun w => pyEqVal v w

/-- A typed object with a nullable `ListSelector` parameter. -/
def exLS : Parameterized :=
  { params := [("name", { ptype := .string }),
               ("ls", { ptype := .listSelector, allow_None := true,
                        range := [("x", .atom (.pint 1))] })],
    values := [("name", .atom (.pstr "obj")), ("ls", .plist [])] }

/-- `p'` agrees with `p` on the declared parameters and on every value
except possibly the one named `n`. -/
def PreservesAt (n : String) (p p' : Parameterized) : Prop :=
  p'.params = p.params ∧ ∀ m, m ≠ n → lookupAssoc p'.values m = lookupAssoc p.values m

/-- Is this dict entry's key a declared parameter of `p`? -/
def isDeclaredKey (p : Parameterized) (kv : String × PVal) : Bool :=
  (lookupAssoc p.params kv.1).isSome

/-- The converter stored for type `t` in a caller-supplied type dict
(`None`/sub-dict values are not converters). -/
def lookupConv {C : Type} (m : TypeDict C) (t : PType) : Option C :=
  match lookupAssoc m (TDKey.typ t) with
  | some (.conv c) => some c
  | _ => none

/-- A serializer type dict holding a type-keyed entry, a sub-dict entry
for the branch `sub` and an explicit `None` entry for the branch `other`. -/
def exC7s : TypeDict SerTag := [(TDKey.typ PType.boolean, TDVal.conv SerTag.tupleSer)]

def exC7m : TypeDict SerTag :=
  [(TDKey.typ PType.integer, TDVal.conv SerTag.defaultSer),
   (TDKey.path "sub", TDVal.sub exC7s),
   (TDKey.path "other", TDVal.null)]

/-! ## Supporting lemmas -/

theorem lookupAssoc_setAssoc_self {K V : Type} [DecidableEq K]
    (l : List (K × V)) (k : K) (v : V) :
    lookupAssoc (setAssoc l k v) k = some v := by
  induction l with
  | nil => simp [setAssoc, lookupAssoc]
  | cons kv rest ih =>
    by_cases h : k = kv.1
    · simp [setAssoc, h, lookupAssoc]
    · simp [setAssoc, h, lookupAssoc, ih]

theorem lookupAssoc_setAssoc_ne {K V : Type} [DecidableEq K]
    (l : List (K × V)) (k k' : K) (v : V) (h : k' ≠ k) :
    lookupAssoc (setAssoc l k v) k' = lookupAssoc l k' := by
  induction l with
  | nil => simp [setAssoc, lookupAssoc, h]
  | cons kv rest ih =>
    by_cases hk : k = kv.1
    · subst hk
      simp [setAssoc, lookupAssoc, h]
    · by_cases hk' : k' = kv.1
      · simp [setAssoc, hk, lookupAssoc, hk']
      · simp [setAssoc, hk, lookupAssoc, hk', ih]

theorem lookupAssoc_eq_none_of_not_mem {K V : Type} [DecidableEq K]
    (l : List (K × V)) (k : K) (h : k ∉ l.map Prod.fst) :
    lookupAssoc l k = none := by
  induction l with
  | nil => rfl
  | cons kv rest ih =>
    simp only [List.map_cons, List.mem_cons] at h
    push_neg at h
    simp [lookupAssoc, h.1, ih h.2]

/-- `dict(base)` updated with a duplicate-free dict `d` looks `d` up first. -/
theorem lookupAssoc_updateAssoc {K V : Type} [DecidableEq K]
    (base d : List (K × V)) (k : K) (hnd : (d.map Prod.fst).Nodup) :
    lookupAssoc (updateAssoc base d) k =
      ((lookupAssoc d k).elim (lookupAssoc base k) fun v => some v) := by
  induction d generalizing base with
  | nil => simp [updateAssoc, lookupAssoc]
  | cons kv rest ih =>
    simp only [List.map_cons, List.nodup_cons] at hnd
    have step : updateAssoc base (kv :: rest) = updateAssoc (setAssoc base kv.1 kv.2) rest := by
      simp [updateAssoc]
    rw [step, ih _ hnd.2]
    by_cases h : k = kv.1
    · subst h
      rw [lookupAssoc_eq_none_of_not_mem rest kv.1 hnd.1]
      simp [lookupAssoc, lookupAssoc_setAssoc_self]
    · simp [lookupAssoc, h, lookupAssoc_setAssoc_ne _ _ _ _ h]

theorem lookupAssoc_ofDefaults_typ {C : Type} (d : List (PType × C)) (t : PType) :
    lookupAssoc (ofDefaults d) (TDKey.typ t) = (lookupAssoc d t).map TDVal.conv := by
  induction d with
  | nil => rfl
  | cons kv rest ih =>
    by_cases h : t = kv.1
    · simp [ofDefaults, lookupAssoc, h]
    · simp [ofDefaults, lookupAssoc, h, TDKey.typ.injEq] at ih ⊢
      exact ih

theorem lookupAssoc_ofDefaults_path {C : Type} (d : List (PType × C)) (j : String) :
    lookupAssoc (ofDefaults d) (TDKey.path j) = none := by
  induction d with
  | nil => rfl
  | cons kv rest ih => simpa [ofDefaults, lookupAssoc] using ih

theorem typeEntries_cons_typ {C : Type} (t' : PType) (v : TDVal C) (rest : TypeDict C) :
    typeEntries ((TDKey.typ t', v) :: rest) = (TDKey.typ t', v) :: typeEntries rest := by
  simp [typeEntries]

theorem typeEntries_cons_path {C : Type} (s : String) (v : TDVal C) (rest : TypeDict C) :
    typeEntries ((TDKey.path s, v) :: rest) = typeEntries rest := by
  simp [typeEntries]

theorem lookupAssoc_typeEntries_typ {C : Type} (m : TypeDict C) (t : PType) :
    lookupAssoc (typeEntries m) (TDKey.typ t) = lookupAssoc m (TDKey.typ t) := by
  induction m with
  | nil => rfl
  | cons kv rest ih =>
    obtain ⟨key, val⟩ := kv
    cases key with
    | typ t' =>
      rw [typeEntries_cons_typ]
      by_cases ht : t = t'
      · simp [lookupAssoc, ht]
      · simp [lookupAssoc, ht, TDKey.typ.injEq, ih]
    | path s =>
      rw [typeEntries_cons_path]
      simp [lookupAssoc, ih]

theorem lookupAssoc_typeEntries_path {C : Type} (m : TypeDict C) (j : String) :
    lookupAssoc (typeEntries m) (TDKey.path j) = none := by
  induction m with
  | nil => rfl
  | cons kv rest ih =>
    obtain ⟨key, val⟩ := kv
    cases key with
    | typ t' =>
      rw [typeEntries_cons_typ]
      simp [lookupAssoc, ih]
    | path s =>
      rw [typeEntries_cons_path]
      exact ih

/-! ## Claims -/

/-- C1: the spec says the priority list defaults to the feature-rich
backend, its legacy variant, then pyyaml, with the first importable one
used and `ImportError` when none is importable.  The intent is confirmed by
the functions' own docstrings and the test suite, but the shipped default
`config.YAML_MODULE_PRIORITIES = ("ruamel.yaml", "ruamel_yaml", "yaml")`
ends in the token `"yaml"`, which the adapters do not recognise (they
expect `"pyyaml"`): with neither ruamel backend importable the adapters
raise `ValueError("Invalid value in config.YAML_MODULE_PRIORITIES: yaml")`
— PyYAML is never tried and the promised `ImportError` is unreachable —
while the token `"pyyaml"` in the same position selects the pyyaml backend
as documented. -/
theorem c1_yaml_default_priorities_break_pyyaml_fallback :
    selectYamlSerializerBackend YAML_MODULE_PRIORITIES (fun n => n == "yaml") =
        .error (.valueError "yaml")
    ∧ selectYamlDeserializerBackend YAML_MODULE_PRIORITIES (fun n => n == "yaml") =
        .error (.valueError "yaml")
    ∧ selectYamlSerializerBackend YAML_MODULE_PRIORITIES (fun _ => false) =
        .error (.valueError "yaml")
    ∧ selectYamlSerializerBackend ["ruamel.yaml", "ruamel_yaml", "pyyaml"]
        (fun n => n == "yaml") = .ok .pyyaml
    ∧ selectYamlDeserializerBackend ["ruamel.yaml", "ruamel_yaml", "pyyaml"]
        (fun _ => false) = .error (.importError ["ruamel.yaml", "ruamel_yaml", "pyyaml"]) :=
  ⟨rfl, rfl, rfl, rfl, rfl⟩

/-- The format-search loop: if some format round-trips, the first one
wins; otherwise the loop falls off the end remembering the last attempt. -/
theorem dtfLoop_spec {Fmt : Type} (strf : DT → Fmt → String)
    (strp : String → Fmt → Option DT) (objName pname : String) (dt : DT) :
    ∀ (formats : List Fmt) (prev : String × Fmt),
      (∀ f ∈ formats, (strp (strf dt f) f).isSome) →
      (∀ f, formats.find? (fun g => decide (strp (strf dt g) g = some dt)) = some f →
        dtfLoop strf strp objName pname dt prev formats =
          .ok (some (strf dt f, f), (strf dt f, f)))
      ∧ (formats.find? (fun g => decide (strp (strf dt g) g = some dt)) = none →
        dtfLoop strf strp objName pname dt prev formats =
          .ok (none, match formats.getLast? with
            | some l => (strf dt l, l)
            | none => prev)) := by
  intro formats
  induction formats with
  | nil =>
    intro prev _
    exact ⟨fun f h => by simp [List.find?] at h, fun _ => by simp [dtfLoop]⟩
  | cons g rest ih =>
    intro prev hp
    have hg : (strp (strf dt g) g).isSome := hp g (by simp)
    obtain ⟨dt2, hdt2⟩ := Option.isSome_iff_exists.mp hg
    by_cases hrt : strp (strf dt g) g = some dt
    · constructor
      · intro f hf
        have : f = g := by
          simp [List.find?, hrt] at hf
          exact hf.symm
        subst this
        simp [dtfLoop, hrt]
      · intro hf
        simp [List.find?, hrt] at hf
    · have hne : dt2 ≠ dt := by
        intro h
        exact hrt (h ▸ hdt2)
      have hstep : dtfLoop strf strp objName pname dt prev (g :: rest) =
          dtfLoop strf strp objName pname dt (strf dt g, g) rest := by
        simp [dtfLoop, hdt2, hne]
      have hfind : (g :: rest).find? (fun g' => decide (strp (strf dt g') g' = some dt)) =
          rest.find? (fun g' => decide (strp (strf dt g') g' = some dt)) := by
        simp [List.find?, hrt]
      obtain ⟨ih1, ih2⟩ := ih (strf dt g, g) (fun f hf => hp f (by simp [hf]))
      constructor
      · intro f hf
        rw [hfind] at hf
        rw [hstep]
        exact ih1 f hf
      · intro hf
        rw [hfind] at hf
        rw [hstep, ih2 hf]
        cases rest with
        | nil => simp
        | cons r rs => simp [List.getLast?]

/-- C2 (amended): with a non-`None` format list, `DefaultDateSerializer.serialize`
returns the string produced by the first format that round-trips the
datetime exactly; when no configured format round-trips, it does NOT fall
back to a raw timestamp — it warns about loss of information and returns
the string produced by the *last* format in the list (the raw-timestamp
fallback fires only when the configured `format` is `None`). -/
theorem c2_date_serializer_format_preference {Fmt : Type}
    (strf : DT → Fmt → String) (strp : String → Fmt → Option DT) (timestamp : DT → ℚ)
    (pname : String) (p : Parameterized) (dt : DT) (formats : List Fmt)
    (hval : p.getValue pname = .pdatetime dt) (hne : formats ≠ [])
    (hp : ∀ f ∈ formats, (strp (strf dt f) f).isSome) :
    (∀ f, formats.find? (fun g => decide (strp (strf dt g) g = some dt)) = some f →
      defaultDateSerializerSerialize strf strp timestamp (some formats) pname p =
        .ok (.atom (.pstr (strf dt f)), []))
    ∧ (formats.find? (fun g => decide (strp (strf dt g) g = some dt)) = none →
      defaultDateSerializerSerialize strf strp timestamp (some formats) pname p =
        .ok (.atom (.pstr (strf dt (formats.getLast hne))), [lossOfInfoMsg dt])) := by
  cases formats with
  | nil => exact absurd rfl hne
  | cons f0 rest =>
    obtain ⟨h1, h2⟩ := dtfLoop_spec strf strp p.objName pname dt (f0 :: rest) ("", f0) hp
    constructor
    · intro f hf
      simp [defaultDateSerializerSerialize, hval, datetimeToFormatted, h1 f hf,
        Except.bind, bind, pure, Except.pure, Functor.map, Except.map]
    · intro hf
      have hlast : (f0 :: rest).getLast? = some ((f0 :: rest).getLast hne) :=
        List.getLast?_eq_getLast _ hne
      simp [defaultDateSerializerSerialize, hval, datetimeToFormatted, h2 hf, hlast,
        Except.bind, bind, pure, Except.pure, Functor.map, Except.map]

/-- C2 counterexample: a noon datetime with the single configured format
`"%Y-%m-%d"` (which cannot round-trip it) serializes to the formatted
string `"2020-01-01"` (with a loss-of-information warning), not to the raw
timestamp number the claim requires. -/
theorem c2_counterexample_noon_serializes_to_string :
    defaultDateSerializerSerialize strftimePy strptimePy dtTimestamp
        (some ["%Y-%m-%d"]) "d" exDateNoon =
      .ok (.atom (.pstr "2020-01-01"), [lossOfInfoMsg ⟨2020, 1, 1, 12, 0, 0, 0⟩])
    ∧ PVal.atom (.pstr "2020-01-01") ≠
        .atom (.pfloat (dtTimestamp ⟨2020, 1, 1, 12, 0, 0, 0⟩)) :=
  ⟨rfl, by decide⟩

/-- C2 witness: a midnight datetime against the default format list picks
the first (shortest) format. -/
theorem c2_date_serializer_format_preference_witness :
    defaultDateSerializerSerialize strftimePy strptimePy dtTimestamp
        (some DEFAULT_DATE_FORMATS) "d" exDateMidnight =
      .ok (.atom (.pstr "2020-01-01"), []) :=
  (c2_date_serializer_format_preference strftimePy strptimePy dtTimestamp "d"
    exDateMidnight ⟨2020, 1, 1, 0, 0, 0, 0⟩ DEFAULT_DATE_FORMATS rfl (by decide)
    (by decide)).1 "%Y-%m-%d" rfl

/-! ### C9: the boolean deserializer's token sets -/

theorem trueValues_any_eq_claim (a : PAtom) :
    (TRUE_VALUES.any fun m => pyEqAtom a m) = pyValMemB (.atom a) claimTrueTokens := by
  cases a with
  | pnone => simp [TRUE_VALUES, claimTrueTokens, pyValMemB, pyEqAtom, pyEqVal]
  | pbool b => cases b <;> simp [TRUE_VALUES, claimTrueTokens, pyValMemB, pyEqAtom, pyEqVal]
  | pint n => simp [TRUE_VALUES, claimTrueTokens, pyValMemB, pyEqAtom, pyEqVal]
  | pfloat q => simp [TRUE_VALUES, claimTrueTokens, pyValMemB, pyEqAtom, pyEqVal]
  | pstr s =>
    simp [TRUE_VALUES, claimTrueTokens, pyValMemB, pyEqAtom, pyEqVal,
      Bool.or_comm, Bool.or_left_comm, Bool.or_assoc]

theorem falseValues_any_eq_claim (a : PAtom) :
    (FALSE_VALUES.any fun m => pyEqAtom a m) = pyValMemB (.atom a) claimFalseTokens := by
  cases a with
  | pnone => simp [FALSE_VALUES, claimFalseTokens, pyValMemB, pyEqAtom, pyEqVal]
  | pbool b => cases b <;> simp [FALSE_VALUES, claimFalseTokens, pyValMemB, pyEqAtom, pyEqVal]
  | pint n => simp [FALSE_VALUES, claimFalseTokens, pyValMemB, pyEqAtom, pyEqVal]
  | pfloat q => simp [FALSE_VALUES, claimFalseTokens, pyValMemB, pyEqAtom, pyEqVal]
  | pstr s =>
    simp [FALSE_VALUES, claimFalseTokens, pyValMemB, pyEqAtom, pyEqVal,
      Bool.or_comm, Bool.or_left_comm, Bool.or_assoc]

theorem pyValMemB_non_atom (v : PVal) (hv : ∀ a, v ≠ .atom a) (l : List PVal)
    (hl : ∀ w ∈ l, ∃ a, w = .atom a) : pyValMemB v l = false := by
  induction l with
  | nil => rfl
  | cons w rest ih =>
    obtain ⟨a, ha⟩ := hl w (by simp)
    subst ha
    have h1 : pyEqVal v (.atom a) = false := by
      cases v with
      | atom b => exact absurd rfl (hv b)
      | plist xs => rfl
      | ptuple xs => rfl
      | pdatetime dt => rfl
    simp [pyValMemB, h1] at ih ⊢
    exact ih fun w hw => hl w (by simp [hw])

/-- C9 (amended): after the none check, `DefaultBooleanDeserializer` sets
`True` exactly when the raw value is Python-equal to a member of the claimed
true-token set, `False` exactly for the false-token set, and raises
`ParamConfigTypeError` for every other *hashable* input; an unhashable raw
value (a list) instead escapes as the `TypeError` raised by the set
membership test itself (see the counterexample). -/
theorem c9_boolean_deserializer_tokens (name : String) (block : PVal)
    (p : Parameterized) (pp : PParam)
    (hpp : lookupAssoc p.params name = some pp)
    (hnone : ¬ (block = .atom .pnone ∧ pp.allow_None))
    (hhash : pyHashable block = true) :
    booleanDeserialize name block p =
      if pyValMemB block claimTrueTokens then
        .ok (p.setParam name (.atom (.pbool true)))
      else if pyValMemB block claimFalseTokens then
        .ok (p.setParam name (.atom (.pbool false)))
      else
        .error (.paramConfigTypeError p.objName name
          ("cannot convert \"" ++ pyStr block ++ "\" to bool")) := by
  have hchk : checkIfAllowNoneAndSet name block p = .ok none := by
    simp [checkIfAllowNoneAndSet, paramsGet, hpp, hnone, bind, Except.bind, pure, Except.pure]
  have hmem : ∀ (s : List PAtom) (c : List PVal),
      (∀ a, (s.any fun m => pyEqAtom a m) = pyValMemB (.atom a) c) →
      (∀ w ∈ c, ∃ a, w = .atom a) →
      pyMemAtoms block s = .ok (pyValMemB block c) := by
    intro s c hb hc
    cases block with
    | atom a => simpa [pyMemAtoms, pyHashable] using (hb a).symm ▸ rfl
    | plist xs => simp [pyHashable] at hhash
    | ptuple xs =>
      simp [pyMemAtoms, pyHashable,
        pyValMemB_non_atom (.ptuple xs) (fun a h => PVal.noConfusion h) c hc]
    | pdatetime dt =>
      simp [pyMemAtoms, pyHashable,
        pyValMemB_non_atom (.pdatetime dt) (fun a h => PVal.noConfusion h) c hc]
  have hmemT : pyMemAtoms block TRUE_VALUES = .ok (pyValMemB block claimTrueTokens) :=
    hmem TRUE_VALUES claimTrueTokens trueValues_any_eq_claim
      (by intro w hw; simp [claimTrueTokens] at hw; rcases hw with h | h | h | h | h | h | h | h | h | h | h | h <;> exact ⟨_, h⟩)
  have hmemF : pyMemAtoms block FALSE_VALUES = .ok (pyValMemB block claimFalseTokens) :=
    hmem FALSE_VALUES claimFalseTokens falseValues_any_eq_claim
      (by intro w hw; simp [claimFalseTokens] at hw; rcases hw with h | h | h | h | h | h | h | h | h | h | h | h <;> exact ⟨_, h⟩)
  by_cases hT : pyValMemB block claimTrueTokens = true
  · simp [booleanDeserialize, hchk, hmemT, hT, bind, Except.bind, pure, Except.pure]
  · have hT' : pyValMemB block claimTrueTokens = false := by
      simpa using hT
    by_cases hF : pyValMemB block claimFalseTokens = true
    · simp [booleanDeserialize, hchk, hmemT, hmemF, hT', hF, bind, Except.bind, pure, Except.pure]
    · have hF' : pyValMemB block claimFalseTokens = false := by
        simpa using hF
      have hnotbool : ∀ b, block ≠ .atom (.pbool b) := by
        intro b hb
        subst hb
        cases b with
        | true => simp [pyValMemB, claimTrueTokens, pyEqVal, pyEqAtom] at hT'
        | false => simp [pyValMemB, claimFalseTokens, pyEqVal, pyEqAtom] at hF'
      cases block with
      | atom a =>
        cases a with
        | pbool b => exact absurd rfl (hnotbool b)
        | pnone =>
          simp [booleanDeserialize, hchk, hmemT, hmemF, hT', hF', bind, Except.bind,
            pure, Except.pure, pyStr, pyStrAtom, throw, throwThe, MonadExceptOf.throw]
        | pint n =>
          simp [booleanDeserialize, hchk, hmemT, hmemF, hT', hF', bind, Except.bind,
            pure, Except.pure, pyStr, pyStrAtom, throw, throwThe, MonadExceptOf.throw]
        | pfloat q =>
          simp [booleanDeserialize, hchk, hmemT, hmemF, hT', hF', bind, Except.bind,
            pure, Except.pure, pyStr, pyStrAtom, throw, throwThe, MonadExceptOf.throw]
        | pstr s =>
          simp [booleanDeserialize, hchk, hmemT, hmemF, hT', hF', bind, Except.bind,
            pure, Except.pure, pyStr, pyStrAtom, throw, throwThe, MonadExceptOf.throw]
      | plist xs => simp [pyHashable] at hhash
      | ptuple xs =>
        simp [booleanDeserialize, hchk, hmemT, hmemF, hT', hF', bind, Except.bind,
          pure, Except.pure, throw, throwThe, MonadExceptOf.throw]
      | pdatetime dt =>
        simp [booleanDeserialize, hchk, hmemT, hmemF, hT', hF', bind, Except.bind,
          pure, Except.pure, throw, throwThe, MonadExceptOf.throw]

/-- C9 counterexample: a list raw value does not raise
`ParamConfigTypeError` — the set membership test raises an uncaught
`TypeError` (lists are unhashable). -/
theorem c9_counterexample_list_block :
    booleanDeserialize "b" (.plist [.pint 1]) exObj =
      .error (.typeError "unhashable type: 'list'")
    ∧ (match booleanDeserialize "b" (.plist [.pint 1]) exObj with
       | .error (.paramConfigTypeError _ _ _) => true
       | _ => false) = false :=
  ⟨rfl, rfl⟩

/-- C9 witness: `"yes"` deserializes to `True` on a concrete object. -/
theorem c9_boolean_deserializer_tokens_witness :
    booleanDeserialize "b" (.atom (.pstr "yes")) exObj =
      .ok (exObj.setParam "b" (.atom (.pbool true))) :=
  (c9_boolean_deserializer_tokens "b" (.atom (.pstr "yes")) exObj
    { ptype := .boolean, allow_None := true } rfl (by simp) rfl).trans rfl

/-! ### C4: the none check -/

/-- C4 (amended): every converter in the modelled default registries
performs the none check as its first step — EXCEPT the `ListSelector`
deserializer, which deliberately skips it (source comment: "a list
selector cannot be none, only empty.  Therefore, no "None" checks") and
instead raises `ParamConfigTypeError` when handed `None`, even for a
parameter whose descriptor allows `None`; symmetrically the `ListSelector`
serializer propagates a `TypeError` on a `None` value instead of emitting
`None`. -/
theorem c4_none_check_first (name : String) (p : Parameterized) (pp : PParam)
    (hpp : lookupAssoc p.params name = some pp) (hallow : pp.allow_None = true) :
    (∀ tc ∈ DEFAULT_DESERIALIZER_DICT, tc.2 ≠ DeserTag.listSelectorDeser →
      runDeser tc.2 name (.atom .pnone) p = .ok (p.setParam name (.atom .pnone)))
    ∧ runDeser DEFAULT_BACKUP_DESERIALIZER name (.atom .pnone) p =
        .ok (p.setParam name (.atom .pnone))
    ∧ runDeser .listSelectorDeser name (.atom .pnone) p =
        .error (.paramConfigTypeError p.objName name "")
    ∧ (p.getValue name = .atom .pnone →
        (∀ tc ∈ DEFAULT_SERIALIZER_DICT, tc.2 ≠ SerTag.listSelectorSer →
          runSer tc.2 name p = .ok (.atom .pnone, []))
        ∧ runSer .listSelectorSer name p = .error (.typeError "not iterable")) := by
  have hchk : checkIfAllowNoneAndSet name (.atom .pnone) p =
      .ok (some (p.setParam name (.atom .pnone))) := by
    simp [checkIfAllowNoneAndSet, paramsGet, hpp, hallow, bind, Except.bind, pure, Except.pure]
  have hdeser : ∀ tag : DeserTag, tag ≠ .listSelectorDeser →
      runDeser tag name (.atom .pnone) p = .ok (p.setParam name (.atom .pnone)) := by
    intro tag htag
    cases tag with
    | defaultDeser =>
      simp [runDeser, defaultDeserialize, hchk, bind, Except.bind, pure, Except.pure]
    | booleanDeser =>
      simp [runDeser, booleanDeserialize, hchk, bind, Except.bind, pure, Except.pure]
    | integerDeser =>
      simp [runDeser, castDeserialize, hchk, bind, Except.bind, pure, Except.pure]
    | numberDeser =>
      simp [runDeser, castDeserialize, hchk, bind, Except.bind, pure, Except.pure]
    | stringDeser =>
      simp [runDeser, castDeserialize, hchk, bind, Except.bind, pure, Except.pure]
    | listDeser =>
      simp [runDeser, listDeserialize, hchk, bind, Except.bind, pure, Except.pure]
    | tupleDeser =>
      simp [runDeser, castDeserialize, hchk, bind, Except.bind, pure, Except.pure]
    | numericTupleDeser =>
      simp [runDeser, numericTupleDeserialize, hchk, bind, Except.bind, pure, Except.pure]
    | listSelectorDeser => exact absurd rfl htag
    | objectSelectorDeser =>
      simp [runDeser, objectSelectorDeserialize, hchk, bind, Except.bind, pure, Except.pure]
  refine ⟨fun tc htc hne => hdeser tc.2 hne, hdeser .defaultDeser (by simp), ?_, ?_⟩
  · simp [runDeser, listSelectorDeserialize, toIterable, bind, Except.bind, pure,
      Except.pure, throw, throwThe, MonadExceptOf.throw]
  · intro hval
    have hser : ∀ tag : SerTag, tag ≠ .listSelectorSer →
        runSer tag name p = .ok (.atom .pnone, []) := by
      intro tag htag
      cases tag with
      | defaultSer => simp [runSer, hval]
      | tupleSer =>
        simp [runSer, tupleSerialize, hval, bind, Except.bind, pure, Except.pure]
      | listSelectorSer => exact absurd rfl htag
      | objectSelectorSer =>
        simp [runSer, objectSelectorSerialize, hval, bind, Except.bind, pure, Except.pure]
      | classSelectorSer =>
        simp [runSer, classSelectorSerialize, hval, paramsGet, hpp, bind, Except.bind,
          pure, Except.pure]
      | dateSer =>
        simp [runSer, defaultDateSerializerSerialize, hval, bind, Except.bind, pure,
          Except.pure]
    refine ⟨fun tc htc hne => hser tc.2 hne, ?_⟩
    simp [runSer, listSelectorSerialize, hval, toIterable, bind, Except.bind, pure,
      Except.pure, throw, throwThe, MonadExceptOf.throw]

/-- C4 counterexample: the `ListSelector` deserializer handed `None` on a
parameter that allows `None` raises `ParamConfigTypeError` instead of
setting `None` and short-circuiting. -/
theorem c4_counterexample_list_selector_none :
    runDeser .listSelectorDeser "ls" (.atom .pnone) exLS =
      .error (.paramConfigTypeError "obj" "ls" "")
    ∧ runDeser .listSelectorDeser "ls" (.atom .pnone) exLS ≠
        .ok (exLS.setParam "ls" (.atom .pnone)) :=
  ⟨rfl, by
    rw [show runDeser .listSelectorDeser "ls" (.atom .pnone) exLS =
      .error (.paramConfigTypeError "obj" "ls" "") from rfl]
    simp⟩

/-- C4 witness: the boolean deserializer short-circuits on `None` for the
nullable parameter of a concrete object. -/
theorem c4_none_check_first_witness :
    runDeser .booleanDeser "b" (.atom .pnone) exObj =
      .ok (exObj.setParam "b" (.atom .pnone)) :=
  (c4_none_check_first "b" exObj { ptype := .boolean, allow_None := true } rfl rfl).1
    (.boolean, .booleanDeser) (by simp [DEFAULT_DESERIALIZER_DICT]) (by simp)

/-! ### C5: no validation of the missing-key policy string -/

theorem deserializeFlatGo_policy_ignore (dnd : List (String × DeserTag))
    (merged : TypeDict DeserTag) (policy : String) (hW : policy ≠ "warn")
    (hR : policy ≠ "raise") (d : List (String × PVal)) :
    ∀ p, deserializeFromDictFlatGo dnd merged policy d p =
      deserializeFromDictFlatGo dnd merged "ignore" d p := by
  induction d with
  | nil => intro p; rfl
  | cons kv rest ih =>
    intro p
    obtain ⟨name, block⟩ := kv
    simp only [deserializeFromDictFlatGo]
    cases hpp : lookupAssoc p.params name with
    | none => simp [hW, hR, ih]
    | some pp =>
      cases hsel : selectConverter dnd merged DEFAULT_BACKUP_DESERIALIZER name pp.ptype with
      | error e => simp [hsel]
      | ok c =>
        cases hrun : runDeser c name block p with
        | ok p' => simp [hsel, hrun, ih]
        | error e => simp [hsel, hrun]

theorem serializeFlatGo_policy_ignore (snd : List (String × SerTag))
    (merged : TypeDict SerTag) (policy : String) (hW : policy ≠ "warn")
    (hR : policy ≠ "raise") (p : Parameterized) (only : List String) :
    ∀ d h w, serializeToDictFlatGo snd merged policy p only d h w =
      serializeToDictFlatGo snd merged "ignore" p only d h w := by
  induction only with
  | nil => intro d h w; rfl
  | cons name rest ih =>
    intro d h w
    simp only [serializeToDictFlatGo]
    cases hpp : lookupAssoc p.params name with
    | none => simp [hW, hR, ih]
    | some pp =>
      cases hsel : selectConverter snd merged DEFAULT_BACKUP_SERIALIZER name pp.ptype with
      | error e => simp [hsel, bind, Except.bind]
      | ok c =>
        cases hrun : runSer c name p with
        | error e => simp [hsel, hrun, bind, Except.bind]
        | ok vw =>
          cases hhelp : runSerHelp c name p with
          | error e => simp [hsel, hrun, hhelp, bind, Except.bind]
          | ok hs =>
            simp [hsel, hrun, hhelp, bind, Except.bind, pure, Except.pure, ih]

/-- C5 (amended): neither flat entry point validates the missing-key
policy string — no configuration error is raised for an unrecognized
policy; instead any string other than `"warn"` and `"raise"` behaves
exactly like `"ignore"` (unknown keys are skipped silently and everything
else proceeds). -/
theorem c5_unrecognized_policy_acts_as_ignore (policy : String)
    (hW : policy ≠ "warn") (hR : policy ≠ "raise") :
    (∀ d p dnd dtd, deserializeFromDictFlat d p dnd dtd policy =
      deserializeFromDictFlat d p dnd dtd "ignore")
    ∧ (∀ p only snd std, serializeToDictFlat p only snd std policy =
      serializeToDictFlat p only snd std "ignore") := by
  constructor
  · intro d p dnd dtd
    exact deserializeFlatGo_policy_ignore _ _ policy hW hR d p
  · intro p only snd std
    simp only [serializeToDictFlat]
    rw [serializeFlatGo_policy_ignore _ _ policy hW hR]

/-- C5 counterexample: the policy string `"bogus"` raises nothing — the
unknown key is skipped silently and the remaining key is applied, on both
the deserializing and the serializing flat dispatch. -/
theorem c5_counterexample_invalid_policy_not_rejected :
    deserializeFromDictFlat [("zzz", .atom (.pint 3)), ("b", .atom (.pstr "on"))]
        exObj none none "bogus" =
      ⟨exObj.setParam "b" (.atom (.pbool true)), [], none⟩
    ∧ serializeToDictFlat exObj (some ["zzz", "b"]) none none "bogus" =
      .ok ⟨[("b", .atom (.pbool false))], [], []⟩ :=
  ⟨rfl, rfl⟩

/-- C5 witness: the amended equivalence at the concrete policy `"bogus"`. -/
theorem c5_unrecognized_policy_acts_as_ignore_witness :
    deserializeFromDictFlat [("zzz", .atom (.pint 3))] exObj none none "bogus" =
      deserializeFromDictFlat [("zzz", .atom (.pint 3))] exObj none none "ignore" :=
  (c5_unrecognized_policy_acts_as_ignore "bogus" (by decide) (by decide)).1
    [("zzz", .atom (.pint 3))] exObj none none

/-! ### C6: behaviour of the three missing-key policies

A successful converter run only touches the attribute it was invoked for;
these frame lemmas let the policy statements speak about a fixed object. -/

theorem preservesAt_rfl (n : String) (p : Parameterized) : PreservesAt n p p :=
  ⟨rfl, fun _ _ => rfl⟩

theorem preservesAt_setParam (n : String) (p : Parameterized) (v : PVal) :
    PreservesAt n p (p.setParam n v) :=
  ⟨rfl, fun _ hm => lookupAssoc_setAssoc_ne _ _ _ _ hm⟩

theorem preservesAt_trans {n : String} {p q r : Parameterized}
    (h1 : PreservesAt n p q) (h2 : PreservesAt n q r) : PreservesAt n p r :=
  ⟨h2.1.trans h1.1, fun m hm => (h2.2 m hm).trans (h1.2 m hm)⟩

theorem PreservesAt.objName_eq {n : String} {p p' : Parameterized}
    (h : PreservesAt n p p') (hn : n ≠ "name") : p'.objName = p.objName := by
  unfold Parameterized.objName
  rw [h.2 "name" (Ne.symm hn)]

theorem checkNone_preserves {n : String} {b : PVal} {p p' : Parameterized}
    (h : checkIfAllowNoneAndSet n b p = .ok (some p')) : PreservesAt n p p' := by
  unfold checkIfAllowNoneAndSet at h
  cases hpg : paramsGet p n with
  | error e => simp [hpg, bind, Except.bind] at h
  | ok pp =>
    simp only [hpg, bind, Except.bind] at h
    split at h
    · simp only [pure, Except.pure, Except.ok.injEq, Option.some.injEq] at h
      exact h ▸ preservesAt_setParam n p _
    · simp [pure, Except.pure] at h

theorem findObject_preserves {n : String} {b : PVal} {p p' : Parameterized} {v : PVal}
    (h : findObjectInObjectSelector n b p = .ok (p', v)) : PreservesAt n p p' := by
  unfold findObjectInObjectSelector at h
  cases hpg : paramsGet p n with
  | error e => simp [hpg, bind, Except.bind] at h
  | ok pp =>
    simp only [hpg, bind, Except.bind] at h
    split at h
    · simp only [pure, Except.pure, Except.ok.injEq, Prod.mk.injEq] at h
      exact h.1 ▸ preservesAt_rfl n p
    · split at h
      · simp only [pure, Except.pure, Except.ok.injEq, Prod.mk.injEq] at h
        exact h.1 ▸ preservesAt_rfl n p
      · simp only [pure, Except.pure, Except.ok.injEq, Prod.mk.injEq] at h
        exact h.1 ▸ preservesAt_setParam n p b

theorem listSelectorElems_preserves {n : String} :
    ∀ (xs : List PAtom) (p : Parameterized) (acc : List PAtom) (p' : Parameterized)
      (vals : List PAtom), listSelectorElems n p acc xs = .ok (p', vals) →
      PreservesAt n p p' := by
  intro xs
  induction xs with
  | nil =>
    intro p acc p' vals h
    simp only [listSelectorElems, Except.ok.injEq, Prod.mk.injEq] at h
    exact h.1 ▸ preservesAt_rfl n p
  | cons x rest ih =>
    intro p acc p' vals h
    simp only [listSelectorElems, bind, Except.bind] at h
    cases hfind : findObjectInObjectSelector n (.atom x) p with
    | error e => simp [hfind] at h
    | ok pv =>
      obtain ⟨p1, v⟩ := pv
      simp only [hfind] at h
      cases hat : expectAtom v with
      | error e => simp [hat] at h
      | ok a =>
        simp only [hat] at h
        exact preservesAt_trans (findObject_preserves hfind) (ih p1 _ p' vals h)

theorem castDeserialize_preserves {isInst : PVal → Bool}
    {cast : String → String → PVal → Except PErr PVal} {n : String} {b : PVal}
    {p p' : Parameterized}
    (h : castDeserialize isInst cast n b p = .ok p') : PreservesAt n p p' := by
  unfold castDeserialize at h
  cases hchk : checkIfAllowNoneAndSet n b p with
  | error e => simp [hchk, bind, Except.bind] at h
  | ok o =>
    simp only [hchk, bind, Except.bind] at h
    cases o with
    | some q =>
      simp only [pure, Except.pure, Except.ok.injEq] at h
      exact h ▸ checkNone_preserves hchk
    | none =>
      cases hinst : isInst b with
      | true =>
        simp only [hinst] at h
        simp only [if_true, pure, Except.pure, Except.ok.injEq] at h
        exact h ▸ preservesAt_setParam n p b
      | false =>
        simp only [hinst, Bool.false_eq_true, if_false, ite_false] at h
        cases hc : cast p.objName n b with
        | ok v =>
          simp only [hc, pure, Except.pure, Except.ok.injEq] at h
          exact h ▸ preservesAt_setParam n p v
        | error e =>
          cases e <;> simp [hc, throw, throwThe, MonadExceptOf.throw] at h

theorem runDeser_preservesAt (tag : DeserTag) (n : String) (b : PVal)
    (p p' : Parameterized) (h : runDeser tag n b p = .ok p') : PreservesAt n p p' := by
  cases tag with
  | defaultDeser =>
    unfold runDeser defaultDeserialize at h
    cases hchk : checkIfAllowNoneAndSet n b p with
    | error e => simp [hchk, bind, Except.bind] at h
    | ok o =>
      simp only [hchk, bind, Except.bind] at h
      cases o with
      | some q =>
        simp only [pure, Except.pure, Except.ok.injEq] at h
        exact h ▸ checkNone_preserves hchk
      | none =>
        simp only [pure, Except.pure, Except.ok.injEq] at h
        exact h ▸ preservesAt_setParam n p b
  | booleanDeser =>
    unfold runDeser booleanDeserialize at h
    cases hchk : checkIfAllowNoneAndSet n b p with
    | error e => simp [hchk, bind, Except.bind] at h
    | ok o =>
      simp only [hchk, bind, Except.bind] at h
      cases o with
      | some q =>
        simp only [pure, Except.pure, Except.ok.injEq] at h
        exact h ▸ checkNone_preserves hchk
      | none =>
        cases hm : pyMemAtoms b TRUE_VALUES with
        | error e => simp [hm] at h
        | ok inT =>
          simp only [hm] at h
          cases inT with
          | true =>
            simp [pure, Except.pure] at h
            subst h
            exact preservesAt_setParam n p _
          | false =>
            simp only [Bool.false_eq_true, if_false, ite_false] at h
            cases hmf : pyMemAtoms b FALSE_VALUES with
            | error e => simp [hmf, pure, Except.pure] at h
            | ok inF =>
              simp only [hmf, pure, Except.pure] at h
              cases inF with
              | true =>
                simp only [if_true, Except.ok.injEq] at h
                exact h ▸ preservesAt_setParam n p _
              | false =>
                simp only [Bool.false_eq_true, if_false, ite_false] at h
                split at h
                · simp only [Except.ok.injEq] at h
                  exact h ▸ preservesAt_setParam n p _
                · simp [throw, throwThe, MonadExceptOf.throw] at h
  | integerDeser =>
    unfold runDeser at h
    exact castDeserialize_preserves h
  | numberDeser =>
    unfold runDeser at h
    exact castDeserialize_preserves h
  | stringDeser =>
    unfold runDeser at h
    exact castDeserialize_preserves h
  | tupleDeser =>
    unfold runDeser at h
    exact castDeserialize_preserves h
  | listDeser =>
    unfold runDeser listDeserialize at h
    cases hchk : checkIfAllowNoneAndSet n b p with
    | error e => simp [hchk, bind, Except.bind] at h
    | ok o =>
      simp only [hchk, bind, Except.bind] at h
      cases o with
      | some q =>
        simp only [pure, Except.pure, Except.ok.injEq] at h
        exact h ▸ checkNone_preserves hchk
      | none =>
        cases hpg : paramsGet p n with
        | error e => simp [hpg] at h
        | ok pp =>
          simp only [hpg] at h
          split at h
          · simp only [pure, Except.pure, Except.ok.injEq] at h
            exact h ▸ preservesAt_setParam n p _
          · simp [pure, Except.pure, throw, throwThe, MonadExceptOf.throw] at h
          · simp [pure, Except.pure, throw, throwThe, MonadExceptOf.throw] at h
          · simp [pure, Except.pure, throw, throwThe, MonadExceptOf.throw] at h
  | numericTupleDeser =>
    unfold runDeser numericTupleDeserialize at h
    cases hchk : checkIfAllowNoneAndSet n b p with
    | error e => simp [hchk, bind, Except.bind] at h
    | ok o =>
      simp only [hchk, bind, Except.bind] at h
      cases o with
      | some q =>
        simp only [pure, Except.pure, Except.ok.injEq] at h
        exact h ▸ checkNone_preserves hchk
      | none =>
        cases hit : toIterable b with
        | none => simp [hit, throw, throwThe, MonadExceptOf.throw] at h
        | some xs =>
          rw [hit] at h
          cases hr : floatCastList p.objName n xs with
          | ok fs =>
            simp only [hr, pure, Except.pure, Except.ok.injEq] at h
            subst h
            exact preservesAt_setParam n p _
          | error e =>
            cases e <;> simp [hr, throw, throwThe, MonadExceptOf.throw] at h
  | listSelectorDeser =>
    unfold runDeser listSelectorDeserialize at h
    cases hit : toIterable b with
    | none => simp [hit, throw, throwThe, MonadExceptOf.throw] at h
    | some xs =>
      simp only [hit, bind, Except.bind] at h
      cases he : listSelectorElems n p [] xs with
      | error e => simp [he] at h
      | ok pv =>
        obtain ⟨p1, vals⟩ := pv
        simp only [he, pure, Except.pure, Except.ok.injEq] at h
        exact preservesAt_trans (listSelectorElems_preserves xs p [] p1 vals he)
          (h ▸ preservesAt_setParam n p1 _)
  | objectSelectorDeser =>
    unfold runDeser objectSelectorDeserialize at h
    cases hchk : checkIfAllowNoneAndSet n b p with
    | error e => simp [hchk, bind, Except.bind] at h
    | ok o =>
      simp only [hchk, bind, Except.bind] at h
      cases o with
      | some q =>
        simp only [pure, Except.pure, Except.ok.injEq] at h
        exact h ▸ checkNone_preserves hchk
      | none =>
        cases hfind : findObjectInObjectSelector n b p with
        | error e => simp [hfind] at h
        | ok pv =>
          obtain ⟨p1, v⟩ := pv
          simp only [hfind, pure, Except.pure, Except.ok.injEq] at h
          exact preservesAt_trans (findObject_preserves hfind)
            (h ▸ preservesAt_setParam n p1 v)

theorem isDeclaredKey_congr {p p' : Parameterized} (h : p'.params = p.params) :
    isDeclaredKey p' = isDeclaredKey p := by
  funext kv
  simp [isDeclaredKey, h]

/-- Under policy `"ignore"`, unknown keys are skipped silently: the run
equals the run on the dict restricted to declared keys, and no warnings
are issued. -/
theorem deserializeFlatGo_ignore_spec (dnd : List (String × DeserTag))
    (merged : TypeDict DeserTag) :
    ∀ (d : List (String × PVal)) (p : Parameterized),
      deserializeFromDictFlatGo dnd merged "ignore" d p =
        deserializeFromDictFlatGo dnd merged "ignore" (d.filter (isDeclaredKey p)) p
      ∧ (deserializeFromDictFlatGo dnd merged "ignore" d p).warnings = [] := by
  intro d
  induction d with
  | nil => intro p; exact ⟨rfl, rfl⟩
  | cons kv rest ih =>
    intro p
    obtain ⟨name, block⟩ := kv
    cases hpp : lookupAssoc p.params name with
    | none =>
      have hfil : ((name, block) :: rest).filter (isDeclaredKey p) =
          rest.filter (isDeclaredKey p) := by
        simp [List.filter_cons, isDeclaredKey, hpp]
      rw [hfil]
      have hstep : deserializeFromDictFlatGo dnd merged "ignore"
          ((name, block) :: rest) p = deserializeFromDictFlatGo dnd merged "ignore" rest p := by
        simp [deserializeFromDictFlatGo, hpp]
      rw [hstep]
      exact ih p
    | some pp =>
      have hfil : ((name, block) :: rest).filter (isDeclaredKey p) =
          (name, block) :: rest.filter (isDeclaredKey p) := by
        simp [List.filter_cons, isDeclaredKey, hpp]
      rw [hfil]
      simp only [deserializeFromDictFlatGo, hpp]
      cases hsel : selectConverter dnd merged DEFAULT_BACKUP_DESERIALIZER name pp.ptype with
      | error e => simp [hsel]
      | ok c =>
        cases hrun : runDeser c name block p with
        | error e => simp [hsel, hrun]
        | ok p' =>
          simp only [hsel, hrun]
          have hpres := runDeser_preservesAt c name block p p' hrun
          obtain ⟨ih1, ih2⟩ := ih p'
          rw [isDeclaredKey_congr hpres.1] at ih1
          exact ⟨ih1, ih2⟩

/-- Under policy `"warn"`, every unknown key produces exactly one warning
(in traversal order) and every declared key is still applied, provided no
converter itself fails and the dict does not touch the `name` parameter. -/
theorem deserializeFlatGo_warn_spec (dnd : List (String × DeserTag))
    (merged : TypeDict DeserTag) :
    ∀ (d : List (String × PVal)) (p : Parameterized),
      "name" ∉ d.map Prod.fst →
      (deserializeFromDictFlatGo dnd merged "ignore" (d.filter (isDeclaredKey p)) p).error
        = none →
      deserializeFromDictFlatGo dnd merged "warn" d p =
        ⟨(deserializeFromDictFlatGo dnd merged "ignore" (d.filter (isDeclaredKey p)) p).parameterized,
         (d.filter fun kv => ! isDeclaredKey p kv).map fun kv =>
           noParamToSetMsg kv.1 p.objName,
         none⟩ := by
  intro d
  induction d with
  | nil =>
    intro p _ _
    rfl
  | cons kv rest ih =>
    intro p hname herr
    obtain ⟨name, block⟩ := kv
    simp only [List.map_cons, List.mem_cons] at hname
    push_neg at hname
    cases hpp : lookupAssoc p.params name with
    | none =>
      have hfil : ((name, block) :: rest).filter (isDeclaredKey p) =
          rest.filter (isDeclaredKey p) := by
        simp [List.filter_cons, isDeclaredKey, hpp]
      rw [hfil] at herr
      have hfil2 : ((name, block) :: rest).filter (fun kv => ! isDeclaredKey p kv) =
          (name, block) :: rest.filter (fun kv => ! isDeclaredKey p kv) := by
        simp [List.filter_cons, isDeclaredKey, hpp]
      rw [hfil, hfil2]
      have hstep : deserializeFromDictFlatGo dnd merged "warn" ((name, block) :: rest) p =
          ⟨(deserializeFromDictFlatGo dnd merged "warn" rest p).parameterized,
           noParamToSetMsg name p.objName ::
             (deserializeFromDictFlatGo dnd merged "warn" rest p).warnings,
           (deserializeFromDictFlatGo dnd merged "warn" rest p).error⟩ := by
        simp [deserializeFromDictFlatGo, hpp]
      rw [hstep, ih p hname.2 herr]
      simp
    | some pp =>
      have hfil : ((name, block) :: rest).filter (isDeclaredKey p) =
          (name, block) :: rest.filter (isDeclaredKey p) := by
        simp [List.filter_cons, isDeclaredKey, hpp]
      have hfil2 : ((name, block) :: rest).filter (fun kv => ! isDeclaredKey p kv) =
          rest.filter (fun kv => ! isDeclaredKey p kv) := by
        simp [List.filter_cons, isDeclaredKey, hpp]
      rw [hfil] at herr
      rw [hfil, hfil2]
      simp only [deserializeFromDictFlatGo, hpp] at herr ⊢
      cases hsel : selectConverter dnd merged DEFAULT_BACKUP_DESERIALIZER name pp.ptype with
      | error e => simp only [hsel] at herr; simp at herr
      | ok c =>
        simp only [hsel] at herr ⊢
        cases hrun : runDeser c name block p with
        | error e => simp only [hrun] at herr; simp at herr
        | ok p' =>
          simp only [hrun] at herr ⊢
          have hpres := runDeser_preservesAt c name block p p' hrun
          have hobj : p'.objName = p.objName :=
            hpres.objName_eq (by simpa using Ne.symm hname.1)
          have ihp := ih p' hname.2 (by rw [isDeclaredKey_congr hpres.1]; exact herr)
          rw [ihp, isDeclaredKey_congr hpres.1, hobj]

/-- Under policy `"raise"`, the first unknown key in traversal order
aborts the call with a `ValueError`: all keys before it are applied, no
warnings are issued, and nothing after it is applied. -/
theorem deserializeFlatGo_raise_spec (dnd : List (String × DeserTag))
    (merged : TypeDict DeserTag) :
    ∀ (pre : List (String × PVal)) (p : Parameterized),
      (∀ kv ∈ pre, isDeclaredKey p kv = true) →
      "name" ∉ pre.map Prod.fst →
      (deserializeFromDictFlatGo dnd merged "raise" pre p).error = none →
      ∀ (k : String) (v : PVal) (post : List (String × PVal)),
        lookupAssoc p.params k = none →
        deserializeFromDictFlatGo dnd merged "raise" (pre ++ (k, v) :: post) p =
          ⟨(deserializeFromDictFlatGo dnd merged "raise" pre p).parameterized, [],
           some (.valueError (noParamToSetMsg k p.objName))⟩ := by
  intro pre
  induction pre with
  | nil =>
    intro p _ _ _ k v post hk
    simp [deserializeFromDictFlatGo, hk]
  | cons kv rest ih =>
    intro p hknown hname herr k v post hk
    obtain ⟨name, block⟩ := kv
    simp only [List.map_cons, List.mem_cons] at hname
    push_neg at hname
    have hd : (lookupAssoc p.params name).isSome := by
      simpa [isDeclaredKey] using hknown (name, block) (by simp)
    obtain ⟨pp, hpp⟩ := Option.isSome_iff_exists.mp hd
    simp only [List.cons_append, deserializeFromDictFlatGo, hpp] at herr ⊢
    cases hsel : selectConverter dnd merged DEFAULT_BACKUP_DESERIALIZER name pp.ptype with
    | error e => simp only [hsel] at herr; simp at herr
    | ok c =>
      simp only [hsel] at herr ⊢
      cases hrun : runDeser c name block p with
      | error e => simp only [hrun] at herr; simp at herr
      | ok p' =>
        simp only [hrun] at herr ⊢
        have hpres := runDeser_preservesAt c name block p p' hrun
        have hobj : p'.objName = p.objName :=
          hpres.objName_eq (by simpa using Ne.symm hname.1)
        have ihp := ih p'
          (fun kv2 hkv2 => by
            rw [show isDeclaredKey p' kv2 = isDeclaredKey p kv2 from
              congrFun (isDeclaredKey_congr hpres.1) kv2]
            exact hknown kv2 (by simp [hkv2]))
          hname.2 herr k v post (by rw [hpres.1]; exact hk)
        simpa [List.append_eq, hobj] using ihp

/-- C6: during flat deserialization, for keys that are not declared
parameters of the target: `"ignore"` skips them silently (the run equals
the run on the dict restricted to declared keys, with no warnings);
`"warn"` emits one warning per offending key, in traversal order, and
still applies every declared key; `"raise"` raises `ValueError` at the
first offending key, so the keys before it remain applied and nothing
after it is applied. -/
theorem c6_missing_key_policies (d : List (String × PVal)) (p : Parameterized)
    (dnd : Option (List (String × DeserTag))) (dtd : Option (TypeDict DeserTag)) :
    (deserializeFromDictFlat d p dnd dtd "ignore" =
        deserializeFromDictFlat (d.filter (isDeclaredKey p)) p dnd dtd "ignore"
      ∧ (deserializeFromDictFlat d p dnd dtd "ignore").warnings = [])
    ∧ ("name" ∉ d.map Prod.fst →
        (deserializeFromDictFlat (d.filter (isDeclaredKey p)) p dnd dtd "ignore").error
          = none →
        deserializeFromDictFlat d p dnd dtd "warn" =
          ⟨(deserializeFromDictFlat (d.filter (isDeclaredKey p)) p dnd dtd
              "ignore").parameterized,
           (d.filter fun kv => ! isDeclaredKey p kv).map fun kv =>
             noParamToSetMsg kv.1 p.objName,
           none⟩)
    ∧ (∀ (pre : List (String × PVal)) (k : String) (v : PVal)
          (post : List (String × PVal)),
        d = pre ++ (k, v) :: post →
        (∀ kv ∈ pre, isDeclaredKey p kv = true) →
        "name" ∉ pre.map Prod.fst →
        lookupAssoc p.params k = none →
        (deserializeFromDictFlat pre p dnd dtd "raise").error = none →
        deserializeFromDictFlat d p dnd dtd "raise" =
          ⟨(deserializeFromDictFlat pre p dnd dtd "raise").parameterized, [],
           some (.valueError (noParamToSetMsg k p.objName))⟩) := by
  unfold deserializeFromDictFlat
  refine ⟨deserializeFlatGo_ignore_spec _ _ d p, deserializeFlatGo_warn_spec _ _ d p, ?_⟩
  intro pre k v post hd hpre hname hk herr
  subst hd
  exact deserializeFlatGo_raise_spec _ _ pre p hpre hname herr k v post hk

/-- C6 witness: on a concrete object, `"raise"` aborts at the unknown key
`"zzz"`, keeping the earlier assignment and skipping the later one. -/
theorem c6_missing_key_policies_witness :
    deserializeFromDictFlat
        [("b", .atom (.pstr "on")), ("zzz", .atom (.pint 3)), ("i", .atom (.pint 5))]
        exObj none none "raise" =
      ⟨(deserializeFromDictFlat [("b", .atom (.pstr "on"))] exObj none none
          "raise").parameterized, [],
       some (.valueError (noParamToSetMsg "zzz" "obj"))⟩ :=
  (c6_missing_key_policies
      [("b", .atom (.pstr "on")), ("zzz", .atom (.pint 3)), ("i", .atom (.pint 5))]
      exObj none none).2.2
    [("b", .atom (.pstr "on"))] "zzz" (.atom (.pint 3)) [("i", .atom (.pint 5))]
    rfl (by decide) (by decide) rfl rfl

/-! ### C3: converter-selection precedence -/

theorem lookupAssoc_mem {K V : Type} [DecidableEq K] {l : List (K × V)} {k : K} {v : V}
    (h : lookupAssoc l k = some v) : (k, v) ∈ l := by
  induction l with
  | nil => simp [lookupAssoc] at h
  | cons kv rest ih =>
    obtain ⟨k', v'⟩ := kv
    by_cases hk : k = k'
    · subst hk
      simp only [lookupAssoc, if_pos] at h
      simp only [Option.some.injEq] at h
      subst h
      exact List.mem_cons_self _ _
    · simp only [lookupAssoc, if_neg hk] at h
      exact List.mem_cons_of_mem _ (ih h)

/-- C3: the flat dispatch selects converters by first-match precedence —
the caller's name-override entry; else the entry for the parameter's exact
type in the caller's type dict merged on top of the registry defaults (so
unmentioned kinds keep their defaults); else the registry default; else
the backup converter — and both `_serialize_to_dict_flat` and
`_deserialize_from_dict_flat` resolve and invoke exactly that converter. -/
theorem c3_converter_precedence {C : Type} (defaults : List (PType × C)) (backup : C)
    (nameDict : List (String × C)) (typeDict : TypeDict C)
    (hnd : (typeDict.map Prod.fst).Nodup)
    (hconv : ∀ kv ∈ typeDict, ∃ c, kv.2 = TDVal.conv c)
    (name : String) (t : PType) :
    (selectConverter nameDict (mergeTypeDict defaults (some typeDict)) backup name t =
      .ok (match lookupAssoc nameDict name with
        | some c => c
        | none =>
          match lookupConv typeDict t with
          | some c => c
          | none =>
            match lookupAssoc defaults t with
            | some c => c
            | none => backup))
    ∧ (selectConverter nameDict (mergeTypeDict defaults none) backup name t =
      .ok (match lookupAssoc nameDict name with
        | some c => c
        | none =>
          match lookupAssoc defaults t with
          | some c => c
          | none => backup))
    ∧ (∀ (v : PVal) (p : Parameterized) (pp : PParam)
          (dnd : Option (List (String × DeserTag)))
          (dtd : Option (TypeDict DeserTag)) (m : String),
        lookupAssoc p.params name = some pp →
        deserializeFromDictFlat [(name, v)] p dnd dtd m =
          match selectConverter (dnd.getD [])
              (mergeTypeDict DEFAULT_DESERIALIZER_DICT dtd)
              DEFAULT_BACKUP_DESERIALIZER name pp.ptype with
          | .error e => ⟨p, [], some e⟩
          | .ok c =>
            match runDeser c name v p with
            | .ok p' => ⟨p', [], none⟩
            | .error e => ⟨p, [], some e⟩)
    ∧ (∀ (p : Parameterized) (pp : PParam) (snd : Option (List (String × SerTag)))
          (std : Option (TypeDict SerTag)) (m : String) (c : SerTag) (v : PVal)
          (ws : List String) (hs : Option String),
        lookupAssoc p.params name = some pp →
        selectConverter (snd.getD []) (mergeTypeDict DEFAULT_SERIALIZER_DICT std)
          DEFAULT_BACKUP_SERIALIZER name pp.ptype = .ok c →
        runSer c name p = .ok (v, ws) →
        runSerHelp c name p = .ok hs →
        ∃ h w, serializeToDictFlat p (some [name]) snd std m = .ok ⟨[(name, v)], h, w⟩) := by
  refine ⟨?_, ?_, ?_, ?_⟩
  · unfold selectConverter
    cases hn : lookupAssoc nameDict name with
    | some c => rfl
    | none =>
      simp only [mergeTypeDict]
      rw [lookupAssoc_updateAssoc _ _ _ hnd, lookupAssoc_ofDefaults_typ]
      cases htv : lookupAssoc typeDict (TDKey.typ t) with
      | some tv =>
        obtain ⟨c, hc⟩ := hconv _ (lookupAssoc_mem htv)
        simp only at hc
        subst hc
        simp only [Option.elim, lookupConv, htv]
      | none =>
        simp only [Option.elim, lookupConv, htv]
        cases hd : lookupAssoc defaults t with
        | some c => simp [hd]
        | none => simp [hd]
  · unfold selectConverter
    cases hn : lookupAssoc nameDict name with
    | some c => rfl
    | none =>
      simp only [mergeTypeDict]
      rw [lookupAssoc_ofDefaults_typ]
      cases hd : lookupAssoc defaults t with
      | some c => rfl
      | none => rfl
  · intro v p pp dnd dtd m hpk
    unfold deserializeFromDictFlat
    simp only [deserializeFromDictFlatGo, hpk]
  · intro p pp snd std m c v ws hs hpk hsel hrun hhelp
    unfold serializeToDictFlat
    simp only [serializeToDictFlatGo, hpk, hsel, hrun, hhelp, bind, Except.bind, pure,
      Except.pure]
    exact ⟨_, _, rfl⟩

/-- C3 witness: with a name override present, it wins over a type override
and the registry default on a concrete instance. -/
theorem c3_converter_precedence_witness :
    selectConverter [("b", DeserTag.stringDeser)]
        (mergeTypeDict DEFAULT_DESERIALIZER_DICT
          (some [(TDKey.typ .boolean, TDVal.conv DeserTag.integerDeser)]))
        DEFAULT_BACKUP_DESERIALIZER "b" .boolean = .ok .stringDeser :=
  ((c3_converter_precedence DEFAULT_DESERIALIZER_DICT DEFAULT_BACKUP_DESERIALIZER
      [("b", DeserTag.stringDeser)] [(TDKey.typ .boolean, TDVal.conv DeserTag.integerDeser)]
      (by decide)
      (by
        intro kv hkv
        simp only [List.mem_singleton] at hkv
        subst hkv
        exact ⟨_, rfl⟩)
      "b" .boolean).1).trans rfl

/-! ### C8: sorted output keys -/

theorem charListLt_trans : ∀ (b a c : List Char), charListLt a b = true →
    charListLt b c = true → charListLt a c = true := by
  intro b
  induction b with
  | nil =>
    intro a c h1 _
    cases a <;> simp [charListLt] at h1
  | cons y ys ih =>
    intro a c h1 h2
    cases a with
    | nil =>
      cases c with
      | nil => simp [charListLt] at h2
      | cons z zs => simp [charListLt]
    | cons x xs =>
      cases c with
      | nil => simp [charListLt] at h2
      | cons z zs =>
        simp only [charListLt] at h1 h2 ⊢
        by_cases hxy : x.toNat < y.toNat
        · by_cases hyz : y.toNat < z.toNat
          · simp [show x.toNat < z.toNat from Nat.lt_trans hxy hyz]
          · simp only [if_neg hyz] at h2
            by_cases hzy : z.toNat < y.toNat
            · simp [hzy] at h2
            · simp [show x.toNat < z.toNat by omega]
        · simp only [if_neg hxy] at h1
          by_cases hyx : y.toNat < x.toNat
          · simp [hyx] at h1
          · simp only [if_neg hyx] at h1
            by_cases hyz : y.toNat < z.toNat
            · simp [show x.toNat < z.toNat by omega]
            · simp only [if_neg hyz] at h2
              by_cases hzy : z.toNat < y.toNat
              · simp [hzy] at h2
              · simp only [if_neg hzy] at h2
                have hxz : ¬ x.toNat < z.toNat := by omega
                have hzx : ¬ z.toNat < x.toNat := by omega
                simp [hxz, hzx, ih xs zs h1 h2]

theorem charListLt_asymm : ∀ (a b : List Char), charListLt a b = true →
    charListLt b a = false := by
  intro a
  induction a with
  | nil =>
    intro b h
    cases b with
    | nil => simp [charListLt] at h
    | cons y ys => simp [charListLt]
  | cons x xs ih =>
    intro b h
    cases b with
    | nil => simp [charListLt] at h
    | cons y ys =>
      simp only [charListLt] at h ⊢
      by_cases hxy : x.toNat < y.toNat
      · simp [show ¬ y.toNat < x.toNat by omega, hxy]
      · simp only [if_neg hxy] at h
        by_cases hyx : y.toNat < x.toNat
        · simp [hyx] at h
        · simp only [if_neg hyx] at h
          simp [hxy, hyx, ih ys h]

theorem charListLt_compat : ∀ (c b a : List Char), charListLt c a = true →
    charListLt c b = false → charListLt b c = false → charListLt b a = true := by
  intro c
  induction c with
  | nil =>
    intro b a hca hcb hbc
    cases a with
    | nil => simp [charListLt] at hca
    | cons z zs =>
      cases b with
      | nil => simp [charListLt]
      | cons w ws => simp [charListLt] at hcb
  | cons y ys ih =>
    intro b a hca hcb hbc
    cases a with
    | nil => simp [charListLt] at hca
    | cons z zs =>
      cases b with
      | nil => simp [charListLt] at hbc
      | cons w ws =>
        simp only [charListLt] at hca hcb hbc ⊢
        by_cases hyw : y.toNat < w.toNat
        · simp [hyw] at hcb
        · by_cases hwy : w.toNat < y.toNat
          · simp [hwy, hyw] at hbc
          · simp only [if_neg hyw, if_neg hwy] at hcb hbc
            by_cases hyz : y.toNat < z.toNat
            · simp [show w.toNat < z.toNat by omega]
            · simp only [if_neg hyz] at hca
              by_cases hzy : z.toNat < y.toNat
              · simp [hzy] at hca
              · simp only [if_neg hzy] at hca
                have hwz : ¬ w.toNat < z.toNat := by omega
                have hzw : ¬ z.toNat < w.toNat := by omega
                simp [hwz, hzw, ih ws zs hca hcb hbc]

instance : IsTotal (String × PVal) keyLe := by
  constructor
  intro a b
  unfold keyLe strLeB strLtB
  by_cases h : charListLt b.1.data a.1.data = true
  · right
    simp [charListLt_asymm _ _ h]
  · left
    simp only [Bool.not_eq_true] at h
    simp [h]

instance : IsTrans (String × PVal) keyLe := by
  constructor
  intro a b c hab hbc
  unfold keyLe strLeB strLtB at hab hbc ⊢
  simp only [Bool.not_eq_true'] at hab hbc ⊢
  by_cases hca : charListLt c.1.data a.1.data = true
  · by_cases hbc2 : charListLt b.1.data c.1.data = true
    · have hb : charListLt b.1.data a.1.data = true :=
        charListLt_trans c.1.data b.1.data a.1.data hbc2 hca
      rw [hb] at hab
      exact absurd hab (by simp)
    · have hb : charListLt b.1.data a.1.data = true :=
        charListLt_compat c.1.data b.1.data a.1.data hca hbc
          (by simpa using hbc2)
      rw [hb] at hab
      exact absurd hab (by simp)
  · simpa using hca


theorem sortByKey_sorted (l : List (String × PVal)) : (sortByKey l).Pairwise keyLe :=
  List.sorted_insertionSort keyLe l

theorem serializeToDictFlat_sorted {p : Parameterized} {only : Option (List String)}
    {snd : Option (List (String × SerTag))} {std : Option (TypeDict SerTag)}
    {m : String} {out : FlatSerOut}
    (h : serializeToDictFlat p only snd std m = .ok out) :
    out.dict_.Pairwise keyLe := by
  simp only [serializeToDictFlat, bind, Except.bind] at h
  split at h
  · exact Except.noConfusion h
  · simp only [pure, Except.pure, Except.ok.injEq] at h
    subst h
    exact sortByKey_sorted _

/-- C8: for every typed object (a `Parameterized` leaf), the flat dictionary
produced by `serialize_to_dict` lists its attribute keys in ascending code
point order of attribute name, and — the function being deterministic — a
second call on the unmodified object returns the identical result, in
particular the identical key ordering. -/
theorem c8_flat_dict_keys_sorted (p : Parameterized) (o : Option OnlyTree)
    (snd : Option (SndTree SerTag)) (std : Option (TypeDict SerTag))
    (onMissing : String) (d : List (String × PVal)) (ht : HelpTree) (w : List String)
    (h : serializeToDict (.leaf p) o snd std onMissing = .ok (.flat d, ht, w)) :
    ((d.map Prod.fst).Pairwise fun a b => strLeB a b = true) ∧
    ∀ r, serializeToDict (.leaf p) o snd std onMissing = r →
      r = .ok (.flat d, ht, w) := by
  constructor
  · cases hf : serializeToDictFlat p (onlyAtLeaf o) (sndAtLeaf snd) std onMissing with
    | error e => simp [serializeToDict, hf, bind, Except.bind] at h
    | ok out =>
      simp only [serializeToDict, hf, bind, Except.bind, pure, Except.pure,
        Except.ok.injEq, Prod.mk.injEq, OutTree.flat.injEq] at h
      have hs := serializeToDictFlat_sorted hf
      rw [h.1] at hs
      exact List.pairwise_map.mpr hs
  · intro r hr
    rw [← hr]
    exact h

theorem c8_flat_dict_keys_sorted_witness :
    ((([("b", PVal.atom (PAtom.pbool false)),
        ("i", PVal.atom (PAtom.pint 0))].map Prod.fst).Pairwise
        fun a b => strLeB a b = true) ∧
      ∀ r, serializeToDict (.leaf exObj) none none none "ignore" = r →
        r = .ok (.flat [("b", PVal.atom (PAtom.pbool false)),
          ("i", PVal.atom (PAtom.pint 0))], .flat [], [])) :=
  c8_flat_dict_keys_sorted exObj none none none "ignore"
    [("b", PVal.atom (PAtom.pbool false)), ("i", PVal.atom (PAtom.pint 0))]
    (.flat []) [] rfl


theorem childTypeDict_sub {C : Type} {m : TypeDict C} {k : String} {s : TypeDict C}
    (hsub : lookupAssoc m (TDKey.path k) = some (.sub s)) :
    childTypeDict (some m) k = .ok (some (updateAssoc (typeEntries m) s)) := by
  simp [childTypeDict, hsub]

/-- C7: descending from an internal node into the child keyed `k`, both tree
walkers (`serialize_to_dict` and `deserialize_from_dict`) thread to that
child the type dict built from the type-keyed entries of the current map
updated with the current map's entry for `k`.  Consequently a type key not
shadowed by that entry looks up in the child map to its value in the current
map (type-keyed entries apply uniformly), every path key of the child map
comes from the entry for `k` alone (per-path entries apply only beneath the
matching path; absent an entry the child map is exactly the type-keyed
entries), and the `only` and name-override trees are indexed per path by the
object-tree keys via `childOnly`/`childSnd`. -/
theorem c7_child_type_dict_threading {C : Type} (m : TypeDict C) (k : String)
    (s : TypeDict C) (hsub : lookupAssoc m (TDKey.path k) = some (.sub s))
    (hnd : (s.map Prod.fst).Nodup) :
    childTypeDict (some m) k = .ok (some (updateAssoc (typeEntries m) s)) ∧
    (∀ t : PType, lookupAssoc s (TDKey.typ t) = none →
      lookupAssoc (updateAssoc (typeEntries m) s) (TDKey.typ t) =
        lookupAssoc m (TDKey.typ t)) ∧
    (∀ j : String, lookupAssoc (updateAssoc (typeEntries m) s) (TDKey.path j) =
      lookupAssoc s (TDKey.path j)) ∧
    (∀ m2 : TypeDict C, lookupAssoc m2 (TDKey.path k) = none →
      childTypeDict (some m2) k = .ok (some (typeEntries m2))) ∧
    (∀ es : List (String × OnlyTree),
      childOnly (some (.node es)) k = lookupAssoc es k) ∧
    (∀ es : List (String × SndTree C),
      childSnd (some (.node es)) k = lookupAssoc es k) ∧
    (∀ (mS sS : TypeDict SerTag) (child : ObjTree)
        (rest : List (String × ObjTree)) (o : Option OnlyTree)
        (snd : Option (SndTree SerTag)) (mm : String),
      lookupAssoc mS (TDKey.path k) = some (.sub sS) →
      serializeToDictChildren ((k, child) :: rest) o snd (some mS) mm =
        (match serializeToDict child (childOnly o k) (childSnd snd k)
            (some (updateAssoc (typeEntries mS) sS)) mm with
        | .error e => .error e
        | .ok (od, oh, ow) =>
          match serializeToDictChildren rest o snd (some mS) mm with
          | .error e => .error e
          | .ok (ds, hs2, ws) => .ok ((k, od) :: ds, (k, oh) :: hs2, ow ++ ws))) ∧
    (∀ (mD sD : TypeDict DeserTag) (dchild : DataTree)
        (rest : List (String × DataTree)) (pes : List (String × ObjTree))
        (dnd : Option (SndTree DeserTag)) (mm : String) (pth : List String)
        (pchild : ObjTree),
      lookupAssoc mD (TDKey.path k) = some (.sub sD) →
      lookupAssoc pes k = some pchild →
      deserializeFromDictEntries ((k, dchild) :: rest) pes dnd (some mD) mm pth =
        (match deserializeFromDict dchild pchild (childSnd dnd k)
            (some (updateAssoc (typeEntries mD) sD)) mm (pth ++ [k]) with
        | .error e => .error e
        | .ok (pchild2, w1) =>
          match deserializeFromDictEntries rest (setAssoc pes k pchild2)
              dnd (some mD) mm pth with
          | .error e => .error e
          | .ok (pes2, ws) => .ok (pes2, w1 ++ ws))) := by
  refine ⟨childTypeDict_sub hsub, ?_, ?_, ?_, fun es => rfl, fun es => rfl, ?_, ?_⟩
  · intro t ht
    rw [lookupAssoc_updateAssoc _ _ _ hnd, ht, lookupAssoc_typeEntries_typ]
    rfl
  · intro j
    rw [lookupAssoc_updateAssoc _ _ _ hnd, lookupAssoc_typeEntries_path]
    cases hsj : lookupAssoc s (TDKey.path j) <;> simp
  · intro m2 h2
    simp [childTypeDict, h2, updateAssoc]
  · intro mS sS child rest o snd mm hS
    have hc := childTypeDict_sub hS
    cases h1 : serializeToDict child (childOnly o k) (childSnd snd k)
        (some (updateAssoc (typeEntries mS) sS)) mm with
    | error e =>
      simp [serializeToDictChildren, hc, bind, Except.bind, h1]
    | ok x =>
      obtain ⟨od, oh, ow⟩ := x
      cases h2 : serializeToDictChildren rest o snd (some mS) mm with
      | error e =>
        simp [serializeToDictChildren, hc, bind, Except.bind, h1, h2]
      | ok y =>
        obtain ⟨ds, hs2, ws⟩ := y
        simp [serializeToDictChildren, hc, bind, Except.bind, h1, h2, pure, Except.pure]
  · intro mD sD dchild rest pes dnd mm pth pchild hD hp
    have hc := childTypeDict_sub hD
    cases h1 : deserializeFromDict dchild pchild (childSnd dnd k)
        (some (updateAssoc (typeEntries mD) sD)) mm (pth ++ [k]) with
    | error e =>
      simp [deserializeFromDictEntries, hp, hc, bind, Except.bind, h1]
    | ok x =>
      obtain ⟨pchild2, w1⟩ := x
      cases h2 : deserializeFromDictEntries rest (setAssoc pes k pchild2)
          dnd (some mD) mm pth with
      | error e =>
        simp [deserializeFromDictEntries, hp, hc, bind, Except.bind, h1, h2]
      | ok y =>
        obtain ⟨pes2, ws⟩ := y
        simp [deserializeFromDictEntries, hp, hc, bind, Except.bind, h1, h2]

theorem c7_child_type_dict_threading_witness :
    lookupAssoc exC7m (TDKey.path "sub") = some (.sub exC7s) ∧
    (exC7s.map Prod.fst).Nodup ∧
    (childTypeDict (some exC7m) "sub" =
        .ok (some (updateAssoc (typeEntries exC7m) exC7s)) ∧
      (∀ t : PType, lookupAssoc exC7s (TDKey.typ t) = none →
        lookupAssoc (updateAssoc (typeEntries exC7m) exC7s) (TDKey.typ t) =
          lookupAssoc exC7m (TDKey.typ t)) ∧
      (∀ j : String,
        lookupAssoc (updateAssoc (typeEntries exC7m) exC7s) (TDKey.path j) =
          lookupAssoc exC7s (TDKey.path j)) ∧
      (∀ m2 : TypeDict SerTag, lookupAssoc m2 (TDKey.path "sub") = none →
        childTypeDict (some m2) "sub" = .ok (some (typeEntries m2))) ∧
      (∀ es : List (String × OnlyTree),
        childOnly (some (.node es)) "sub" = lookupAssoc es "sub") ∧
      (∀ es : List (String × SndTree SerTag),
        childSnd (some (.node es)) "sub" = lookupAssoc es "sub") ∧
      (∀ (mS sS : TypeDict SerTag) (child : ObjTree)
          (rest : List (String × ObjTree)) (o : Option OnlyTree)
          (snd : Option (SndTree SerTag)) (mm : String),
        lookupAssoc mS (TDKey.path "sub") = some (.sub sS) →
        serializeToDictChildren (("sub", child) :: rest) o snd (some mS) mm =
          (match serializeToDict child (childOnly o "sub") (childSnd snd "sub")
              (some (updateAssoc (typeEntries mS) sS)) mm with
          | .error e => .error e
          | .ok (od, oh, ow) =>
            match serializeToDictChildren rest o snd (some mS) mm with
            | .error e => .error e
            | .ok (ds, hs2, ws) =>
              .ok (("sub", od) :: ds, ("sub", oh) :: hs2, ow ++ ws))) ∧
      (∀ (mD sD : TypeDict DeserTag) (dchild : DataTree)
          (rest : List (String × DataTree)) (pes : List (String × ObjTree))
          (dnd : Option (SndTree DeserTag)) (mm : String) (pth : List String)
          (pchild : ObjTree),
        lookupAssoc mD (TDKey.path "sub") = some (.sub sD) →
        lookupAssoc pes "sub" = some pchild →
        deserializeFromDictEntries (("sub", dchild) :: rest) pes dnd (some mD)
            mm pth =
          (match deserializeFromDict dchild pchild (childSnd dnd "sub")
              (some (updateAssoc (typeEntries mD) sD)) mm (pth ++ ["sub"]) with
          | .error e => .error e
          | .ok (pchild2, w1) =>
            match deserializeFromDictEntries rest (setAssoc pes "sub" pchild2)
                dnd (some mD) mm pth with
            | .error e => .error e
            | .ok (pes2, ws) => .ok (pes2, w1 ++ ws)))) :=
  ⟨rfl, by decide, c7_child_type_dict_threading exC7m "sub" exC7s rfl (by decide)⟩

theorem strData_ext {s t : String} (h : s.data = t.data) : s = t := by
  cases s
  cases t
  exact congrArg String.mk h

theorem charToNat_inj {c d : Char} (h : c.toNat = d.toNat) : c = d :=
  Char.ext (UInt32.ext h)

theorem charListIsPrefix_iff : ∀ (p d : List Char),
    charListIsPrefix p d = true ↔ ∃ t, d = p ++ t
  | [], d => by simp [charListIsPrefix]
  | _ :: _, [] => by simp [charListIsPrefix]
  | c :: cs, e :: es => by
    simp only [charListIsPrefix, Bool.and_eq_true, beq_iff_eq,
      charListIsPrefix_iff cs es, List.cons_append]
    constructor
    · rintro ⟨h1, t, rfl⟩
      exact ⟨t, by rw [charToNat_inj h1]⟩
    · rintro ⟨t, ht⟩
      obtain ⟨rfl, rfl⟩ := List.cons.inj ht
      exact ⟨rfl, t, rfl⟩

theorem strPrefixOf_drop_iff (p y n : String) :
    (strPrefixOfB p y = true ∧ strDrop y p.length = n) ↔ y = p ++ n := by
  constructor
  · rintro ⟨h1, rfl⟩
    obtain ⟨t, ht⟩ := (charListIsPrefix_iff p.data y.data).mp h1
    apply strData_ext
    show y.data = p.data ++ (y.data.drop p.data.length)
    rw [ht, List.drop_left]
  · rintro rfl
    constructor
    · exact (charListIsPrefix_iff p.data (p ++ n).data).mpr ⟨n.data, rfl⟩
    · apply strData_ext
      show (p.data ++ n.data).drop p.data.length = n.data
      exact List.drop_left _ _
theorem mem_prefix_restrict (only1 : List String) (pfx : String)
    (tunable : List String) (n : String) :
    (n ∈ (only1.filterMap fun x =>
        if strPrefixOfB pfx x = true then some (strDrop x pfx.length)
        else none).filter fun x => tunable.contains x) ↔
      ((pfx ++ n) ∈ only1 ∧ n ∈ tunable) := by
  rw [List.mem_filter, List.mem_filterMap]
  constructor
  · rintro ⟨⟨x, hx, hfx⟩, hc⟩
    by_cases hp : strPrefixOfB pfx x = true
    · rw [if_pos hp] at hfx
      simp only [Option.some.injEq] at hfx
      have hx2 := (strPrefixOf_drop_iff pfx x n).mp ⟨hp, hfx⟩
      subst hx2
      exact ⟨hx, List.elem_iff.mp hc⟩
    · rw [if_neg hp] at hfx
      exact absurd hfx (Option.noConfusion)
  · rintro ⟨h1, h2⟩
    have hpn := (strPrefixOf_drop_iff pfx (pfx ++ n) n).mpr rfl
    refine ⟨⟨pfx ++ n, h1, ?_⟩, List.elem_iff.mpr h2⟩
    rw [if_pos hpn.1, hpn.2]

theorem consumed_cond_iff {only1 : List String} {pfx : String}
    {tunable : List String} {y : String} (hy : y ∈ only1) :
    ((strPrefixOfB pfx y = true ∧
      ((only1.filterMap fun x =>
          if strPrefixOfB pfx x = true then some (strDrop x pfx.length)
          else none).filter fun x => tunable.contains x).contains
        (strDrop y pfx.length) = true) ↔
      (strPrefixOfB pfx y = true ∧
        tunable.contains (strDrop y pfx.length) = true)) := by
  constructor
  · rintro ⟨h1, h2⟩
    have h3 := (mem_prefix_restrict only1 pfx tunable _).mp (List.elem_iff.mp h2)
    exact ⟨h1, List.elem_iff.mpr h3.2⟩
  · rintro ⟨h1, h2⟩
    refine ⟨h1, List.elem_iff.mpr ((mem_prefix_restrict only1 pfx tunable _).mpr
      ⟨?_, List.elem_iff.mp h2⟩)⟩
    have hy2 := (strPrefixOf_drop_iff pfx y (strDrop y pfx.length)).mp ⟨h1, rfl⟩
    rw [← hy2]
    exact hy
theorem le_foldr_max : ∀ (l : List Nat) (q : Nat), q ∈ l → q ≤ l.foldr max 0
  | [], q, h => absurd h (List.not_mem_nil q)
  | a :: rest, q, h => by
    rcases List.mem_cons.mp h with rfl | h2
    · exact le_max_left _ _
    · exact le_trans (le_foldr_max rest q h2) (le_max_right _ _)

theorem lookupAssoc_append_left {K V : Type} [DecidableEq K] :
    ∀ (l1 l2 : List (K × V)) (k : K), k ∈ l1.map Prod.fst →
      lookupAssoc (l1 ++ l2) k = lookupAssoc l1 k
  | [], _, k, h => absurd h (by simp)
  | (k1, v1) :: rest, l2, k, h => by
    by_cases hk : k = k1
    · simp [lookupAssoc, hk]
    · simp only [List.map_cons, List.mem_cons] at h
      rcases h with h | h
      · exact absurd h hk
      · simp only [List.cons_append, lookupAssoc, if_neg hk]
        exact lookupAssoc_append_left rest l2 k h

theorem setAssoc_snd_mem {K V : Type} [DecidableEq K] :
    ∀ (l : List (K × V)) (k : K) (v v' : V),
      v' ∈ (setAssoc l k v).map Prod.snd → v' ∈ l.map Prod.snd ∨ v' = v
  | [], k, v, v', h => by
    simp [setAssoc] at h
    exact Or.inr h
  | (k1, v1) :: rest, k, v, v', h => by
    by_cases hk : k = k1
    · simp only [setAssoc, if_pos hk, List.map_cons, List.mem_cons] at h
      rcases h with rfl | h
      · exact Or.inr rfl
      · exact Or.inl (by simp [h])
    · simp only [setAssoc, if_neg hk, List.map_cons, List.mem_cons] at h
      rcases h with rfl | h
      · exact Or.inl (by simp)
      · rcases setAssoc_snd_mem rest k v v' h with h2 | h2
        · exact Or.inl (by simp [h2])
        · exact Or.inr h2

theorem updateAssoc_snd_mem {K V : Type} [DecidableEq K] :
    ∀ (d l : List (K × V)) (v' : V),
      v' ∈ (updateAssoc l d).map Prod.snd →
        v' ∈ l.map Prod.snd ∨ v' ∈ d.map Prod.snd
  | [], l, v', h => Or.inl h
  | (k1, v1) :: rest, l, v', h => by
    have step : updateAssoc l ((k1, v1) :: rest) = updateAssoc (setAssoc l k1 v1) rest := by
      simp [updateAssoc]
    rw [step] at h
    rcases updateAssoc_snd_mem rest (setAssoc l k1 v1) v' h with h2 | h2
    · rcases setAssoc_snd_mem l k1 v1 v' h2 with h3 | h3
      · exact Or.inl h3
      · exact Or.inr (by simp [h3])
    · exact Or.inr (by simp [h2])

theorem suggestLoop_frame (fn : TPNode → List String → String → TPNode) :
    ∀ (tps : List (String × Nat)) (only1 : List String) (store0 : Store) (r : Nat),
      r ∉ tps.map Prod.snd →
      lookupAssoc (suggestLoop fn tps only1 store0).1 r = lookupAssoc store0 r
  | [], only1, store0, r, _ => rfl
  | (pfx0, q) :: rest, only1, store0, r, hr => by
    simp only [List.map_cons, List.mem_cons] at hr
    push_neg at hr
    simp only [suggestLoop]
    rw [suggestLoop_frame fn rest _ _ r hr.2, lookupAssoc_setAssoc_ne _ _ _ _ hr.1]
mutual

theorem deepcopyTree_spec : ∀ (g : GTree) (store : Store) (next : Nat),
    next ≤ (deepcopyTree g store next).2.2 ∧
    (∃ extra, (deepcopyTree g store next).2.1 = store ++ extra) ∧
    (∀ q ∈ treeRefs (deepcopyTree g store next).1, next ≤ q)
  | .tp r, store, next => by
    refine ⟨?_, ⟨[(next, storeGetD store r)], rfl⟩, ?_⟩
    · simp [deepcopyTree]
    · intro q hq
      simp only [deepcopyTree, treeRefs, List.mem_singleton] at hq
      omega
  | .other, store, next =>
    ⟨le_refl _, ⟨[], by simp [deepcopyTree]⟩, by simp [deepcopyTree, treeRefs]⟩
  | .node es, store, next => by
    have h := deepcopyEntries_spec es store next
    rcases hE : deepcopyEntries es store next with ⟨es2, store2, next2⟩
    rw [hE] at h
    refine ⟨?_, ?_, ?_⟩
    · simpa [deepcopyTree, hE] using h.1
    · simpa [deepcopyTree, hE] using h.2.1
    · simpa [deepcopyTree, hE, treeRefs] using h.2.2

theorem deepcopyEntries_spec : ∀ (es : List (String × GTree)) (store : Store) (next : Nat),
    next ≤ (deepcopyEntries es store next).2.2 ∧
    (∃ extra, (deepcopyEntries es store next).2.1 = store ++ extra) ∧
    (∀ q ∈ entriesRefs (deepcopyEntries es store next).1, next ≤ q)
  | [], store, next =>
    ⟨le_refl _, ⟨[], by simp [deepcopyEntries]⟩, by simp [deepcopyEntries, entriesRefs]⟩
  | (k, g) :: rest, store, next => by
    have h1 := deepcopyTree_spec g store next
    rcases hG : deepcopyTree g store next with ⟨g2, store1, next1⟩
    rw [hG] at h1
    have h2 := deepcopyEntries_spec rest store1 next1
    rcases hR : deepcopyEntries rest store1 next1 with ⟨rest2, store2, next2⟩
    rw [hR] at h2
    obtain ⟨hn1, ⟨x1, hx1⟩, hr1⟩ := h1
    obtain ⟨hn2, ⟨x2, hx2⟩, hr2⟩ := h2
    dsimp only at hn1 hn2 hr1 hr2 hx1 hx2
    refine ⟨?_, ?_, ?_⟩
    · simp only [deepcopyEntries, hG, hR]
      omega
    · refine ⟨x1 ++ x2, ?_⟩
      simp only [deepcopyEntries, hG, hR]
      rw [hx2, hx1, List.append_assoc]
    · intro q hq
      simp only [deepcopyEntries, hG, hR, entriesRefs, List.mem_append] at hq
      rcases hq with hq | hq
      · exact hr1 q hq
      · exact le_trans hn1 (hr2 q hq)

end
mutual

theorem tunableParamsEntries_refs : ∀ (onD pfx : String) (es : List (String × GTree))
    (acc acc2 : List (String × Nat)) (ws : List String),
    tunableParamsEntries onD pfx es acc = .ok (acc2, ws) →
    ∀ q, q ∈ acc2.map Prod.snd → q ∈ acc.map Prod.snd ∨ q ∈ entriesRefs es
  | onD, pfx, [], acc, acc2, ws, h, q, hq => by
    simp only [tunableParamsEntries, Except.ok.injEq, Prod.mk.injEq] at h
    obtain ⟨h1, h2⟩ := h
    subst h1
    exact Or.inl hq
  | onD, pfx, (key, value) :: rest, acc, acc2, ws, h, q, hq => by
    simp only [tunableParamsEntries, bind, Except.bind, pure, Except.pure] at h
    split at h
    · split at h
      · exact absurd h (by simp)
      · split at h
        · exact absurd h (by simp)
        · rename_i v1 hV
          split at h
          · exact absurd h (by simp)
          · rename_i v2 hR
            simp only [Except.ok.injEq, Prod.mk.injEq] at h
            obtain ⟨h1, h2⟩ := h
            subst h1
            rcases tunableParamsEntries_refs onD pfx rest v1.1 v2.1 v2.2 hR q hq
              with h3 | h3
            · rcases tunableParamsValue_refs onD _ value acc v1.1 v1.2 hV q h3
                with h4 | h4
              · exact Or.inl h4
              · exact Or.inr (by simp [entriesRefs, List.mem_append, h4])
            · exact Or.inr (by simp [entriesRefs, List.mem_append, h3])
    · split at h
      · exact absurd h (by simp)
      · rename_i v1 hV
        split at h
        · exact absurd h (by simp)
        · rename_i v2 hR
          simp only [Except.ok.injEq, Prod.mk.injEq] at h
          obtain ⟨h1, h2⟩ := h
          subst h1
          rcases tunableParamsEntries_refs onD pfx rest v1.1 v2.1 v2.2 hR q hq
            with h3 | h3
          · rcases tunableParamsValue_refs onD _ value acc v1.1 v1.2 hV q h3
              with h4 | h4
            · exact Or.inl h4
            · exact Or.inr (by simp [entriesRefs, List.mem_append, h4])
          · exact Or.inr (by simp [entriesRefs, List.mem_append, h3])

theorem tunableParamsValue_refs : ∀ (onD key2 : String) (g : GTree)
    (acc acc2 : List (String × Nat)) (ws : List String),
    tunableParamsValue onD key2 g acc = .ok (acc2, ws) →
    ∀ q, q ∈ acc2.map Prod.snd → q ∈ acc.map Prod.snd ∨ q ∈ treeRefs g
  | onD, key2, .tp r, acc, acc2, ws, h, q, hq => by
    simp only [tunableParamsValue, Except.ok.injEq, Prod.mk.injEq] at h
    obtain ⟨h1, h2⟩ := h
    subst h1
    rcases setAssoc_snd_mem acc key2 r q hq with h2 | h2
    · exact Or.inl h2
    · exact Or.inr (by simp [treeRefs, h2])
  | onD, key2, .other, acc, acc2, ws, h, q, hq => by
    simp only [tunableParamsValue, Except.ok.injEq, Prod.mk.injEq] at h
    obtain ⟨h1, h2⟩ := h
    subst h1
    exact Or.inl hq
  | onD, key2, .node es, acc, acc2, ws, h, q, hq => by
    simp only [tunableParamsValue, bind, Except.bind] at h
    cases hE : tunableParamsEntries onD key2 es [] with
    | error e =>
      simp only [hE] at h
      exact absurd h (by simp)
    | ok p =>
      obtain ⟨sub, ws2⟩ := p
      simp only [hE, pure, Except.pure, Except.ok.injEq, Prod.mk.injEq] at h
      obtain ⟨h1, h2⟩ := h
      subst h1
      rcases updateAssoc_snd_mem sub acc q hq with h2 | h2
      · exact Or.inl h2
      · rcases tunableParamsEntries_refs onD key2 es [] sub ws2 hE q h2 with h3 | h3
        · simp at h3
        · exact Or.inr (by simpa [treeRefs] using h3)

end
theorem storeGetD_setAssoc_tunable {store0 storeB : Store}
    (hq : ∀ q, (storeGetD store0 q).tunable = (storeGetD storeB q).tunable)
    (r : Nat) (v : TPNode) (hv : v.tunable = (storeGetD store0 r).tunable) :
    ∀ q2, (storeGetD (setAssoc store0 r v) q2).tunable =
      (storeGetD storeB q2).tunable := by
  intro q2
  by_cases h : q2 = r
  · subst h
    unfold storeGetD
    rw [lookupAssoc_setAssoc_self]
    simpa [hv] using hq q2
  · unfold storeGetD
    rw [lookupAssoc_setAssoc_ne _ _ _ _ h]
    exact hq q2

theorem suggestLoop_leftover (fn : TPNode → List String → String → TPNode)
    (hfn : ∀ node picked pfx, (fn node picked pfx).tunable = node.tunable) :
    ∀ (tps : List (String × Nat)) (only1 : List String) (store0 storeB : Store),
    (∀ q, (storeGetD store0 q).tunable = (storeGetD storeB q).tunable) →
    (suggestLoop fn tps only1 store0).2 =
      only1.filter fun y => ! tps.any fun tp => consumes storeB tp y
  | [], only1, store0, storeB, hq => by
    simp [suggestLoop]
  | (pfx0, r) :: rest, only1, store0, storeB, hq => by
    simp only [suggestLoop]
    rw [suggestLoop_leftover fn hfn rest _ _ storeB
      (storeGetD_setAssoc_tunable hq r _ (hfn _ _ _))]
    rw [List.filter_filter]
    refine List.filter_congr ?_
    intro y hy
    have hBB : (storeGetD storeB r).tunable = (storeGetD store0 r).tunable :=
      (hq r).symm
    have hiff : (strPrefixOfB (pfx0 ++ ".") y = true ∧
        ((only1.filterMap fun x =>
          if strPrefixOfB (pfx0 ++ ".") x = true then
            some (strDrop x (pfx0 ++ ".").length) else none).filter
          fun x => (storeGetD store0 r).tunable.contains x).contains
          (strDrop y (pfx0 ++ ".").length) = true) ↔
        consumes storeB (pfx0, r) y = true := by
      rw [consumed_cond_iff hy]
      simp [consumes, Bool.and_eq_true, hBB]
    have hch : (decide (¬ (strPrefixOfB (pfx0 ++ ".") y = true ∧
        ((only1.filterMap fun x =>
          if strPrefixOfB (pfx0 ++ ".") x = true then
            some (strDrop x (pfx0 ++ ".").length) else none).filter
          fun x => (storeGetD store0 r).tunable.contains x).contains
          (strDrop y (pfx0 ++ ".").length) = true))) =
        ! consumes storeB (pfx0, r) y := by
      cases hcons : consumes storeB (pfx0, r) y
      · rw [Bool.not_false]
        refine decide_eq_true ?_
        intro hab
        rw [hiff.mp hab] at hcons
        exact Bool.noConfusion hcons
      · rw [Bool.not_true]
        exact decide_eq_false (not_not_intro (hiff.mpr hcons))
    rw [List.any_cons, Bool.not_or, hch]
    exact Bool.and_comm _ _
theorem consumed_bool_iff {only1 : List String} {pfx0 : String}
    {store0 : Store} {r : Nat} {y : String} (hy : y ∈ only1) :
    ((strPrefixOfB (pfx0 ++ ".") y = true ∧
      ((only1.filterMap fun x =>
        if strPrefixOfB (pfx0 ++ ".") x = true then
          some (strDrop x (pfx0 ++ ".").length) else none).filter
        fun x => (storeGetD store0 r).tunable.contains x).contains
        (strDrop y (pfx0 ++ ".").length) = true) ↔
      consumes store0 (pfx0, r) y = true) := by
  rw [consumed_cond_iff hy]
  simp [consumes, Bool.and_eq_true]

/-- C10: `suggest_param_dict` never mutates `global_dict` or any typed
object nested in it: every reference allocated before the call looks up
unchanged in the resulting store, the trial suggestions being applied only
to the deep copy, which is the returned dictionary.  Each tunable node is
restricted to the attribute names obtained by string-prefix matching of its
dotted path prefix against the entries of `only`, intersected with the
node's own tunable set.  And the extra-parameters warning is appended, when
`warn` is true, exactly when the requested names consumed by no node form a
nonempty leftover.  (`hfn` records that `get_tunable` is a classmethod: a
node's tunable set survives `suggest_params`.) -/
theorem c10_suggest_param_dict_frame_restriction_warning
    (fn : TPNode → List String → String → TPNode)
    (hfn : ∀ node picked pfx, (fn node picked pfx).tunable = node.tunable)
    (store : Store) (globalDict : List (String × GTree)) (only0 : List String)
    (onDecimal : String) (warn : Bool) (store2 : Store)
    (pd : List (String × GTree)) (ws : List String)
    (h : suggestParamDict fn store globalDict (some only0) onDecimal warn =
      .ok (store2, pd, ws)) :
    (∀ r, r ∈ store.map Prod.fst → lookupAssoc store2 r = lookupAssoc store r) ∧
    (∀ (only1 : List String) (pfx0 : String) (tunable2 : List String) (n : String),
      (n ∈ (only1.filterMap fun x =>
          if strPrefixOfB (pfx0 ++ ".") x = true then
            some (strDrop x (pfx0 ++ ".").length) else none).filter
          fun x => tunable2.contains x) ↔
        ((pfx0 ++ "." ++ n) ∈ only1 ∧ n ∈ tunable2)) ∧
    (∀ (pfx0 : String) (r : Nat) (rest : List (String × Nat))
        (only1 : List String) (store0 : Store),
      ∃ picked only2,
        suggestLoop fn ((pfx0, r) :: rest) only1 store0 =
          suggestLoop fn rest only2
            (setAssoc store0 r (fn (storeGetD store0 r) picked (pfx0 ++ "."))) ∧
        (∀ n, n ∈ picked ↔
          ((pfx0 ++ "." ++ n) ∈ only1 ∧ n ∈ (storeGetD store0 r).tunable)) ∧
        (∀ y, y ∈ only2 ↔
          (y ∈ only1 ∧ consumes store0 (pfx0, r) y = false))) ∧
    (∃ tps ws1,
      tunableParamsEntries onDecimal ""
        (deepcopyEntries globalDict store (nextFresh store)).1 [] = .ok (tps, ws1) ∧
      pd = (deepcopyEntries globalDict store (nextFresh store)).1 ∧
      ws = ws1 ++
        (let leftover := only0.filter fun y => ! tps.any fun tp =>
            consumes (deepcopyEntries globalDict store (nextFresh store)).2.1 tp y
         if warn ∧ leftover ≠ [] then [extraParamsMsg leftover] else [])) := by
  simp only [suggestParamDict, bind, Except.bind, pure, Except.pure] at h
  rw [show (if false = true then "ignore" else onDecimal) = onDecimal from rfl] at h
  cases hT : tunableParamsEntries onDecimal ""
      (deepcopyEntries globalDict store (nextFresh store)).1 [] with
  | error e =>
    rw [hT] at h
    exact absurd h (by simp)
  | ok v =>
    obtain ⟨tps0, ws10⟩ := v
    rw [hT] at h
    simp only [Except.ok.injEq, Prod.mk.injEq, List.nil_append] at h
    obtain ⟨hst, hpd, hws⟩ := h
    refine ⟨?_, ?_, ?_, ?_⟩
    · intro r hr
      have hfr : r < nextFresh store := by
        have := le_foldr_max (store.map Prod.fst) r hr
        unfold nextFresh
        omega
      obtain ⟨hle, ⟨extra, hex⟩, hrefs⟩ :=
        deepcopyEntries_spec globalDict store (nextFresh store)
      have htps : r ∉ tps0.map Prod.snd := by
        intro hmem
        rcases tunableParamsEntries_refs onDecimal ""
            (deepcopyEntries globalDict store (nextFresh store)).1 [] tps0 ws10 hT
            r hmem with h2 | h2
        · simp at h2
        · have := hrefs r h2
          omega
      rw [← hst, suggestLoop_frame fn tps0 only0 _ r htps, hex]
      exact lookupAssoc_append_left store extra r hr
    · intro only1 pfx0 tunable2 n
      exact mem_prefix_restrict only1 (pfx0 ++ ".") tunable2 n
    · intro pfx0 r rest only1 store0
      refine ⟨_, _, rfl, ?_, ?_⟩
      · intro n
        exact mem_prefix_restrict only1 (pfx0 ++ ".") (storeGetD store0 r).tunable n
      · intro y
        constructor
        · intro hmem
          obtain ⟨hy, hc⟩ := List.mem_filter.mp hmem
          refine ⟨hy, ?_⟩
          cases hcons : consumes store0 (pfx0, r) y
          · rfl
          · exact absurd ((consumed_bool_iff hy).mpr hcons) (of_decide_eq_true hc)
        · rintro ⟨hy, hcons⟩
          refine List.mem_filter.mpr ⟨hy, decide_eq_true ?_⟩
          intro hab
          rw [(consumed_bool_iff hy).mp hab] at hcons
          exact Bool.noConfusion hcons
    · refine ⟨tps0, ws10, rfl, hpd.symm, ?_⟩
      rw [← hws]
      have hL := suggestLoop_leftover fn hfn tps0 only0
        (deepcopyEntries globalDict store (nextFresh store)).2.1
        (deepcopyEntries globalDict store (nextFresh store)).2.1 (fun q => rfl)
      rw [hL]
theorem c10_suggest_param_dict_frame_restriction_warning_witness :
    (∀ node picked pfx, (exC10fn node picked pfx).tunable = node.tunable) ∧
    suggestParamDict exC10fn exC10store exC10dict
      (some ["model.lr", "bogus"]) "warn" true =
      .ok (exC10out, [("model", GTree.tp 1)], [extraParamsMsg ["bogus"]]) ∧
    ((∀ r, r ∈ exC10store.map Prod.fst →
      lookupAssoc exC10out r = lookupAssoc exC10store r) ∧
    (∀ (only1 : List String) (pfx0 : String) (tunable2 : List String) (n : String),
      (n ∈ (only1.filterMap fun x =>
          if strPrefixOfB (pfx0 ++ ".") x = true then
            some (strDrop x (pfx0 ++ ".").length) else none).filter
          fun x => tunable2.contains x) ↔
        ((pfx0 ++ "." ++ n) ∈ only1 ∧ n ∈ tunable2)) ∧
    (∀ (pfx0 : String) (r : Nat) (rest : List (String × Nat))
        (only1 : List String) (store0 : Store),
      ∃ picked only2,
        suggestLoop exC10fn ((pfx0, r) :: rest) only1 store0 =
          suggestLoop exC10fn rest only2
            (setAssoc store0 r (exC10fn (storeGetD store0 r) picked (pfx0 ++ "."))) ∧
        (∀ n, n ∈ picked ↔
          ((pfx0 ++ "." ++ n) ∈ only1 ∧ n ∈ (storeGetD store0 r).tunable)) ∧
        (∀ y, y ∈ only2 ↔
          (y ∈ only1 ∧ consumes store0 (pfx0, r) y = false))) ∧
    (∃ tps ws1,
      tunableParamsEntries "warn" ""
        (deepcopyEntries exC10dict exC10store (nextFresh exC10store)).1 [] =
        .ok (tps, ws1) ∧
      [("model", GTree.tp 1)] =
        (deepcopyEntries exC10dict exC10store (nextFresh exC10store)).1 ∧
      [extraParamsMsg ["bogus"]] = ws1 ++
        (let leftover := ["model.lr", "bogus"].filter fun y => ! tps.any fun tp =>
            consumes (deepcopyEntries exC10dict exC10store
              (nextFresh exC10store)).2.1 tp y
         if (true : Bool) ∧ leftover ≠ [] then [extraParamsMsg leftover] else []))) :=
  ⟨fun _ _ _ => rfl, rfl,
    c10_suggest_param_dict_frame_restriction_warning exC10fn (fun _ _ _ => rfl)
      exC10store exC10dict ["model.lr", "bogus"] "warn" true exC10out
      [("model", GTree.tp 1)] [extraParamsMsg ["bogus"]] rfl⟩
end PydrobertParam
